import Mathlib

/-!
Verification development for the `lazarus` self-healing-script tool.

This file gives a shallow embedding, in Lean 4, of the parts of the code base
that the specification's checkable claims are about:

* `src/lazarus/core/truncation.py`  (token estimation and context truncation)
* `src/lazarus/core/verification.py` (error comparison and custom success criteria)
* `src/lazarus/security/redactor.py` together with the built-in redaction
  patterns of `src/lazarus/config/schema.py`
* `src/lazarus/core/loop.py`      (the healing retry loop)
* the data model of `src/lazarus/core/context.py`

Modelling conventions:

* Python `str` values are modelled as `List Char` (`Str` below); Python string
  operations (`split("\n")`, `"\n".join`, slicing, `in`, `strip`, `lower`) are
  modelled by executable Lean functions with the same semantics.
* Python `int` is `Int` (or `Nat` where the value is provably non-negative,
  e.g. token budgets), Python `float` is modelled as `ℚ` with exact
  arithmetic; every concrete arithmetic fact used at a concrete input in this
  file has been checked to agree with IEEE-754 evaluation of the source.
* `re` patterns are modelled by an explicit regular-expression AST (`RE`) and
  a backtracking matcher with Python's leftmost / greedy / first-alternative
  preference order; each fixed pattern string of the source is hand-compiled
  into an `RE` value kept next to the original text.
* `difflib.SequenceMatcher(None, a, b).ratio()` (used by `compare_errors`) is
  modelled faithfully, including the `autojunk` popularity filter for
  sequences of length ≥ 200 (with `isjunk = None` the `bjunk` set is empty,
  so the junk extension loops of `find_longest_match` never fire, but they
  are modelled as well, parameterised by the junk predicate).
* Generators / iterators (`HealingLoop.__iter__`) are modelled as functions
  producing the list of yielded values, parameterised by what the loop body
  does (whether `mark_success()` is called while handling a given attempt)
  and by the outcome of each wall-clock timeout check.
-/

/-- Python strings are modelled as lists of characters. -/
abbrev Str := List Char

/-! ## Basic Python string helpers -/

/-- Python `text.split("\n")`: split on every newline, keeping empty pieces
(`"".split("\n") == [""]`). -/
def splitNl : Str → List Str
  | [] => [[]]
  | c :: cs =>
    match splitNl cs with
    | [] => [[]]
    | l :: ls => if c = '\n' then [] :: l :: ls else (c :: l) :: ls

/-- Python `"\n".join(lines)`. -/
def joinNl : List Str → Str
  | [] => []
  | l :: ls =>
    match ls with
    | [] => l
    | _ :: _ => l ++ '\n' :: joinNl ls

/-- Python `str.isspace` for the characters produced by the sources we model
(the ASCII whitespace characters, matching `\s` of the `re` module on ASCII
text). -/
def isSpaceCh (c : Char) : Bool :=
  c = ' ' || c = '\t' || c = '\n' || c = '\r' || c = '\x0b' || c = '\x0c'

/-- Python `str.strip()`. -/
def stripWs (s : Str) : Str :=
  ((s.dropWhile isSpaceCh).reverse.dropWhile isSpaceCh).reverse

/-- Python `needle in hay` (substring containment). -/
def pyIn (needle hay : Str) : Bool :=
  (List.range (hay.length + 1)).any (fun i => needle.isPrefixOf (hay.drop i))

/-- Python `str.lower()` (ASCII case folding as used by the sources). -/
def lowerStr (s : Str) : Str := s.map Char.toLower

/-- Ascending lexicographic comparison of strings by code point, as used by
Python `sorted` on `str`. -/
def lexLe : Str → Str → Bool
  | [], _ => true
  | _ :: _, [] => false
  | a :: as_, b :: bs => if a = b then lexLe as_ bs else decide (a < b)

/-- Insertion into an ascending list, for modelling Python `sorted`. -/
def insLex (x : Str) : List Str → List Str
  | [] => [x]
  | y :: ys => if lexLe x y then x :: y :: ys else y :: insLex x ys

/-- Python `sorted` on a list of strings. -/
def sortLex : List Str → List Str
  | [] => []
  | x :: xs => insLex x (sortLex xs)

/-- First-occurrence deduplication; models iterating a Python `set` built by
successive `update` calls (only emptiness, membership and the sorted view of
the set are ever consumed by the source, all of which agree with this
representation). -/
def dedupStr : List Str → List Str
  | [] => []
  | x :: xs => if (dedupStr xs).elem x then dedupStr xs else x :: dedupStr xs

/-! ## `core/truncation.py` -/

/-- `estimate_tokens` (truncation.py line 21): `len(text) // 4`. -/
def estimate_tokens (text : Str) : Nat := text.length / 4

/-- The cumulative-character scan shared by the `start` and `end` branches of
`truncate_text`: walk the given lines accumulating `len(line) + 1`, and as
soon as the accumulator exceeds `max_chars` report how many lines (the one
being looked at and everything after it in the walk) are to be removed; `0`
when the loop finishes without the cap being exceeded.  For the `start`
branch the walk is over the reversed line list, for the `end` branch over the
line list itself. -/
def scanRemoved : List Str → Nat → Nat → Nat
  | [], _, _ => 0
  | l :: rest, acc, maxChars =>
    let acc2 := acc + l.length + 1
    if maxChars < acc2 then rest.length + 1 else scanRemoved rest acc2 maxChars

/-- `removed_lines` of the `position == "start"` branch of `truncate_text`. -/
def removedFromStart (lines : List Str) (maxChars : Nat) : Nat :=
  scanRemoved lines.reverse 0 maxChars

/-- `removed_lines` of the `position == "end"` branch of `truncate_text`. -/
def removedFromEnd (lines : List Str) (maxChars : Nat) : Nat :=
  scanRemoved lines 0 maxChars

/-- `start_idx` computation of the `middle` branch of `truncate_text`: the
first index whose cumulative character count exceeds `target`, else `0`. -/
def startScan : List Str → Nat → Nat → Nat → Nat
  | [], _, _, _ => 0
  | l :: rest, acc, idx, target =>
    let acc2 := acc + l.length + 1
    if target < acc2 then idx else startScan rest acc2 (idx + 1) target

/-- `start_idx` of the `middle` branch. -/
def startIdxMid (lines : List Str) (target : Nat) : Nat :=
  startScan lines 0 0 target

/-- `end_idx` computation of the `middle` branch: scanning from the last line
backwards, `i + 1` for the first line index `i` whose cumulative count
exceeds `target`, else the initial value `len(lines)`. -/
def endScan (total : Nat) : List Str → Nat → Nat → Nat
  | [], _, _ => total
  | l :: rest, acc, target =>
    let acc2 := acc + l.length + 1
    if target < acc2 then rest.length + 1 else endScan total rest acc2 target

/-- `end_idx` of the `middle` branch. -/
def endIdxMid (lines : List Str) (target : Nat) : Nat :=
  endScan lines.length lines.reverse 0 target

/-- The marker line `f"[TRUNCATED: {n} lines removed from start]"`. -/
def truncMarkerStart (n : Nat) : Str :=
  ("[TRUNCATED: ".toList) ++ (Nat.repr n).toList ++ (" lines removed from start]".toList)

/-- The marker line `f"[TRUNCATED: {n} lines removed from end]"`. -/
def truncMarkerEnd (n : Nat) : Str :=
  ("[TRUNCATED: ".toList) ++ (Nat.repr n).toList ++ (" lines removed from end]".toList)

/-- The marker line `f"[TRUNCATED: {n} lines removed from middle]"`. -/
def truncMarkerMiddle (n : Nat) : Str :=
  ("[TRUNCATED: ".toList) ++ (Nat.repr n).toList ++ (" lines removed from middle]".toList)

/-- `truncate_text` (truncation.py lines 36-120).  `lines[removed:]` is
`List.drop`, `lines[:-removed]` is `List.take (lines.length - removed)`,
`lines[:start_idx]` is `List.take`, `lines[end_idx:]` is `List.drop`; each
branch falls through to `return text` when its removal count is zero
(resp. when `start_idx < end_idx` fails). -/
def truncate_text (text : Str) (max_tokens : Nat) (position : Str) : Str :=
  if estimate_tokens text ≤ max_tokens then text
  else
    let max_chars := max_tokens * 4
    let lines := splitNl text
    if position = ("start".toList) then
      let removed := removedFromStart lines max_chars
      if 0 < removed then
        truncMarkerStart removed ++ '\n' :: joinNl (lines.drop removed)
      else text
    else if position = ("end".toList) then
      let removed := removedFromEnd lines max_chars
      if 0 < removed then
        joinNl (lines.take (lines.length - removed)) ++ '\n' :: truncMarkerEnd removed
      else text
    else
      let target := max_chars / 2
      let s := startIdxMid lines target
      let e := endIdxMid lines target
      if s < e then
        joinNl (lines.take s) ++
          '\n' :: (truncMarkerMiddle (e - s) ++ '\n' :: joinNl (lines.drop e))
      else text

/-! ## Data model (`core/context.py`) -/

/-- `ExecutionResult` (context.py).  `duration` is a Python float, modelled as
`ℚ`; `timestamp` is a `datetime`, modelled as epoch seconds (`ℚ`) — it is
carried by `dataclasses.replace` and never inspected by the code under
verification. -/
structure ExecutionResult where
  exit_code : Int
  stdout : Str
  stderr : Str
  duration : ℚ
  timestamp : ℚ
deriving DecidableEq, Repr

/-- `CommitInfo` (context.py). -/
structure CommitInfo where
  hash : Str
  author : Str
  date : Str
  message : Str
  diff : Option Str
deriving DecidableEq, Repr

/-- `GitContext` (context.py); `repo_root : Path` is a string. -/
structure GitContext where
  branch : Str
  recent_commits : List CommitInfo
  uncommitted_changes : Str
  repo_root : Str
deriving DecidableEq, Repr

/-- `SystemContext` (context.py). -/
structure SystemContext where
  os_name : Str
  os_version : Str
  python_version : Str
  shell : Str
  cwd : Str
deriving DecidableEq, Repr

/-- `PreviousAttempt` (context.py). -/
structure PreviousAttempt where
  attempt_number : Int
  claude_response_summary : Str
  changes_made : List Str
  error_after : Str
deriving DecidableEq, Repr

/-- `LazarusConfig` (config/schema.py), restricted to the piece the verified
code paths can observe: the user-supplied `security.additional_patterns`
(already compiled, see `RRule` below — the pydantic validator guarantees the
strings compile).  The remaining configuration fields are never read by the
truncation, verification, redaction or loop code modelled here and are
omitted; the claims only require the `config` value to be carried around
unchanged, which any value of this structure witnesses. -/
structure LazarusConfig where
  additional_rule_count : Nat
deriving DecidableEq, Repr

/-- `HealingContext` (context.py). -/
structure HealingContext where
  script_path : Str
  script_content : Str
  execution_result : ExecutionResult
  git_context : Option GitContext
  system_context : SystemContext
  config : LazarusConfig
  previous_attempts : List PreviousAttempt
deriving DecidableEq, Repr

/-! ## Truncation of structured data (`core/truncation.py` continued) -/

/-- `commit.diff or ""`. -/
def diffOrEmpty (d : Option Str) : Str := d.getD []

/-- `truncate_execution_result` (truncation.py lines 123-166).
`int(max_tokens * 0.7)` is `max_tokens * 7 / 10` (exact rational floor; the
counterexamples below only instantiate it at budgets where the IEEE-754
evaluation of the source agrees). -/
def truncate_execution_result (result : ExecutionResult) (max_tokens : Nat) :
    ExecutionResult :=
  let stderr_tokens := estimate_tokens result.stderr
  let stdout_tokens := estimate_tokens result.stdout
  if stderr_tokens + stdout_tokens ≤ max_tokens then result
  else
    let stderr_allocation := max_tokens * 7 / 10
    let stdout_allocation := max_tokens - stderr_allocation
    let p : Str × Nat :=
      if stderr_tokens < stderr_allocation then
        (result.stderr, max_tokens - stderr_tokens)
      else
        (truncate_text result.stderr stderr_allocation ("end".toList), stdout_allocation)
    let truncated_stdout :=
      if stdout_tokens ≤ p.2 then result.stdout
      else truncate_text result.stdout p.2 ("end".toList)
    { result with stdout := truncated_stdout, stderr := p.1 }

/-- `truncate_commit` (truncation.py lines 169-192).  `if commit.diff:` is
Python truthiness: both `None` and the empty diff leave the commit as is. -/
def truncate_commit (commit : CommitInfo) (max_tokens : Nat) : CommitInfo :=
  let message_tokens := estimate_tokens commit.message
  match commit.diff with
  | none => commit
  | some d =>
    if d.isEmpty then commit
    else if max_tokens < message_tokens + estimate_tokens d then
      { commit with
        diff := some (truncate_text d
          (max (max_tokens - message_tokens) (max_tokens / 2)) ("end".toList)) }
    else commit

/-- The commit loop of `truncate_git_context` (truncation.py lines 242-259):
keep whole commits while they fit, truncate the first one that does not fit
into the remaining budget (if any budget remains) and stop, drop the rest. -/
def truncCommitsLoop : List CommitInfo → Nat → List CommitInfo
  | [], _ => []
  | c :: rest, remaining =>
    let commit_tokens := estimate_tokens c.message + estimate_tokens (diffOrEmpty c.diff)
    if commit_tokens ≤ remaining then
      c :: truncCommitsLoop rest (remaining - commit_tokens)
    else if 0 < remaining then [truncate_commit c remaining]
    else []

/-- `truncate_git_context` (truncation.py lines 195-265).
`int(max_tokens * 0.4)` is `max_tokens * 4 / 10`. -/
def truncate_git_context (git_context : Option GitContext) (max_tokens : Nat) :
    Option GitContext :=
  match git_context with
  | none => none
  | some g =>
    let uncommitted_tokens := estimate_tokens g.uncommitted_changes
    let commits_tokens :=
      (g.recent_commits.map
        (fun c => estimate_tokens c.message + estimate_tokens (diffOrEmpty c.diff))).sum
    if uncommitted_tokens + commits_tokens ≤ max_tokens then some g
    else
      let uncommitted_allocation := max_tokens * 4 / 10
      let p : Str × Nat :=
        if uncommitted_allocation < uncommitted_tokens then
          (truncate_text g.uncommitted_changes uncommitted_allocation ("end".toList),
            max_tokens - uncommitted_allocation)
        else
          (g.uncommitted_changes, max_tokens - uncommitted_tokens)
      some { g with
        recent_commits := truncCommitsLoop g.recent_commits p.2,
        uncommitted_changes := p.1 }

/-- The token total computed at the top of `truncate_for_context`
(truncation.py lines 289-302): script content, `stdout + stderr` of the
execution result (estimated on the concatenation), and the git material;
`previous_attempts` is not part of the total. -/
def context_total_tokens (context : HealingContext) : Nat :=
  let script_tokens := estimate_tokens context.script_content
  let result_tokens :=
    estimate_tokens (context.execution_result.stdout ++ context.execution_result.stderr)
  let git_tokens :=
    match context.git_context with
    | none => 0
    | some g =>
        estimate_tokens g.uncommitted_changes +
          (g.recent_commits.map
            (fun c => estimate_tokens c.message + estimate_tokens (diffOrEmpty c.diff))).sum
  script_tokens + result_tokens + git_tokens

/-- `truncate_for_context` (truncation.py lines 268-341).
`int(max_tokens * 0.30)` and `int(max_tokens * 0.25)` are
`max_tokens * 30 / 100` and `max_tokens * 25 / 100` (exact rational floor;
the concrete budgets used below agree with the IEEE-754 evaluation). -/
def truncate_for_context (context : HealingContext) (max_tokens : Nat) :
    HealingContext :=
  if context_total_tokens context ≤ max_tokens then context
  else
    let error_allocation := max_tokens * 30 / 100
    let script_allocation := max_tokens * 30 / 100
    let git_allocation := max_tokens * 25 / 100
    let stdout_allocation :=
      max_tokens - error_allocation - script_allocation - git_allocation
    let truncated_result :=
      truncate_execution_result context.execution_result
        (error_allocation + stdout_allocation)
    let script_tokens := estimate_tokens context.script_content
    let p : Str × Nat :=
      if script_allocation < script_tokens then
        (truncate_text context.script_content script_allocation ("middle".toList),
          git_allocation)
      else
        (context.script_content, git_allocation + (script_allocation - script_tokens))
    let truncated_git := truncate_git_context context.git_context p.2
    { context with
      script_content := p.1,
      execution_result := truncated_result,
      git_context := truncated_git }

/-! ## `core/loop.py` -/

/-- `HealingLoop` (loop.py): the constructor arguments; the mutable fields
(`_current_attempt`, `_start_time`, `_success`) are threaded explicitly
through `HealingLoop.run` below. -/
structure HealingLoop where
  max_attempts : Int
  timeout_per_attempt : Int
  total_timeout : Int
deriving DecidableEq, Repr

/-- `HealingLoop.__init__` (loop.py lines 29-58): `ValueError` on invalid
arguments is modelled as `none`. -/
def HealingLoop.init (max_attempts timeout_per_attempt total_timeout : Int) :
    Option HealingLoop :=
  if max_attempts < 1 then none
  else if timeout_per_attempt < 1 then none
  else if total_timeout < timeout_per_attempt then none
  else some ⟨max_attempts, timeout_per_attempt, total_timeout⟩

/-- `_should_continue` (loop.py lines 82-101); `timedOut` is the outcome of
the wall-clock comparison `time.time() - self._start_time >= self.total_timeout`
at this particular check. -/
def should_continue (loop : HealingLoop) (current_attempt : Int)
    (timedOut success : Bool) : Bool :=
  if loop.max_attempts ≤ current_attempt then false
  else if timedOut then false
  else if success then false
  else true

/-- The loop of `__iter__` (loop.py lines 74-80), with the mutable state made
explicit.  `body i` tells whether `mark_success()` ran while handling the
yielded attempt `i`; `timedOut n` is the outcome of the `n`-th elapsed-time
check.  The fuel `max_attempts.toNat + 1` dominates the number of iterations
because `_current_attempt` grows by one per yield and the loop stops at
`max_attempts`. -/
def HealingLoop.runFrom (loop : HealingLoop) (body : Int → Bool)
    (timedOut : Nat → Bool) : Nat → Int → Bool → Nat → List Int
  | 0, _, _, _ => []
  | fuel + 1, cur, success, chk =>
    if should_continue loop cur (timedOut chk) success then
      (cur + 1) ::
        loop.runFrom body timedOut fuel (cur + 1) (success || body (cur + 1)) (chk + 1)
    else []

/-- `list(iter(loop))`: the attempt numbers yielded by `__iter__` when the
body treats attempts as described by `body`. -/
def HealingLoop.run (loop : HealingLoop) (body : Int → Bool)
    (timedOut : Nat → Bool) : List Int :=
  loop.runFrom body timedOut (loop.max_attempts.toNat + 1) 0 false 0

/-- The list `[lo, lo+1, ..., lo+n-1]` of attempt numbers. -/
def intRange (lo : Int) (n : Nat) : List Int :=
  (List.range n).map (fun t => lo + Int.ofNat t)

/-! ## A small regex engine for the fixed patterns of the sources

Python `re` semantics for the constructs actually used by the patterns under
verification: literals, character classes (with ranges, `\d`, `\s` and
negation), concatenation, alternation (preferring the left alternative),
greedy `*`, `+`, `?`, counted repetition `{m}`, `{m,}`, `{m,n}`, grouping
(no backreferences are used, and every replacement is a fixed string, so
groups are semantically transparent) and the word boundary `\b`.  Matching
is leftmost with backtracking preference order, like the `re` module. -/

/-- One item of a character class. -/
inductive CItem where
  | one (c : Char)
  | rng (lo hi : Char)
  | dgt
  | spc
deriving DecidableEq, Repr

/-- Regular-expression AST. -/
inductive RE where
  | eps
  | lit (c : Char)
  | cc (neg : Bool) (items : List CItem)
  | seq (r₁ r₂ : RE)
  | alt (r₁ r₂ : RE)
  | star (r : RE)
  | grp (r : RE)
  | wordB
deriving DecidableEq, Repr

/-- `r?` (greedy). -/
def RE.opt (r : RE) : RE := .alt r .eps

/-- `r+` (greedy). -/
def RE.plus (r : RE) : RE := .seq r (.star r)

/-- `r{n}`. -/
def RE.rep : Nat → RE → RE
  | 0, _ => .eps
  | n + 1, r => .seq r (RE.rep n r)

/-- `r{0,n}` (greedy: each level prefers one more repetition). -/
def RE.upTo : Nat → RE → RE
  | 0, _ => .eps
  | n + 1, r => .alt (.seq r (RE.upTo n r)) .eps

/-- `r{m,n}`. -/
def RE.between (m n : Nat) (r : RE) : RE := .seq (RE.rep m r) (RE.upTo (n - m) r)

/-- `r{m,}`. -/
def RE.atLeast (m : Nat) (r : RE) : RE := .seq (RE.rep m r) (.star r)

/-- A literal string. -/
def RE.strOf : Str → RE
  | [] => .eps
  | c :: cs => .seq (.lit c) (RE.strOf cs)

/-- Concatenation of a list of regexes. -/
def reSeqs : List RE → RE
  | [] => .eps
  | [r] => r
  | r :: rs => .seq r (reSeqs rs)

/-- Ordered alternation of a list of regexes (left to right, like `a|b|c`). -/
def reAlts : List RE → RE
  | [] => .eps
  | [r] => r
  | r :: rs => .alt r (reAlts rs)

/-- Character comparison, honouring the `re.IGNORECASE` flag. -/
def charEqI (icase : Bool) (a c : Char) : Bool :=
  a = c || (icase && a.toLower = c.toLower)

/-- Range membership, honouring `re.IGNORECASE` (a character is accepted if
it, or its case-folded form, lies in the range, matching `re` on ASCII). -/
def inRngI (icase : Bool) (lo hi c : Char) : Bool :=
  (lo ≤ c && c ≤ hi) ||
    (icase && ((lo ≤ c.toLower && c.toLower ≤ hi) || (lo ≤ c.toUpper && c.toUpper ≤ hi)))

/-- Class-item membership. -/
def citemMatch (icase : Bool) (it : CItem) (c : Char) : Bool :=
  match it with
  | .one a => charEqI icase a c
  | .rng lo hi => inRngI icase lo hi c
  | .dgt => c.isDigit
  | .spc => isSpaceCh c

/-- Character-class membership. -/
def ccMatch (icase neg : Bool) (items : List CItem) (c : Char) : Bool :=
  if neg then !(items.any (fun it => citemMatch icase it c))
  else items.any (fun it => citemMatch icase it c)

/-- `\w` for the `\b` assertion. -/
def isWordCh (c : Char) : Bool := c.isAlphanum || c = '_'

/-- Whether position `pos` of `s` is a `\b` word boundary. -/
def atWordBoundary (s : Str) (pos : Nat) : Bool :=
  let before :=
    if pos = 0 then false
    else match s.get? (pos - 1) with
      | some c => isWordCh c
      | none => false
  let after :=
    match s.get? pos with
    | some c => isWordCh c
    | none => false
  before != after

/-- The backtracking matcher: `reMatch icase s fuel r pos k` explores, in
Python's preference order, the ways `r` can match `s` starting at `pos`, and
returns the first result on which the continuation `k` succeeds.  `fuel`
bounds the depth of the search (it only ever decreases on recursive calls;
`reFuel` below always suffices for the calls the model makes). -/
def reMatch (icase : Bool) (s : Str) : Nat → RE → Nat → (Nat → Option Nat) → Option Nat
  | 0, _, _, _ => none
  | fuel + 1, r, pos, k =>
    match r with
    | .eps => k pos
    | .lit c =>
      match s.get? pos with
      | some ch => if charEqI icase c ch then k (pos + 1) else none
      | none => none
    | .cc neg items =>
      match s.get? pos with
      | some ch => if ccMatch icase neg items ch then k (pos + 1) else none
      | none => none
    | .seq r₁ r₂ => reMatch icase s fuel r₁ pos (fun p => reMatch icase s fuel r₂ p k)
    | .alt r₁ r₂ =>
      match reMatch icase s fuel r₁ pos k with
      | some e => some e
      | none => reMatch icase s fuel r₂ pos k
    | .grp r₁ => reMatch icase s fuel r₁ pos k
    | .star r₁ =>
      match reMatch icase s fuel r₁ pos
          (fun p => if pos < p then reMatch icase s fuel (.star r₁) p k else none) with
      | some e => some e
      | none => k pos
    | .wordB => if atWordBoundary s pos then k pos else none

/-- Structural size of a regex, used to bound the matcher's search depth. -/
def reSize : RE → Nat
  | .eps => 1
  | .lit _ => 1
  | .cc _ _ => 1
  | .seq r₁ r₂ => reSize r₁ + reSize r₂ + 1
  | .alt r₁ r₂ => reSize r₁ + reSize r₂ + 1
  | .star r => reSize r + 1
  | .grp r => reSize r + 1
  | .wordB => 1

/-- A fuel value that dominates the matcher's search depth for pattern `r` on
string `s`: along any call chain each consumed character contributes at most
`reSize r` frames, plus `reSize r` trailing frames. -/
def reFuel (r : RE) (s : Str) : Nat := (reSize r + 2) * (s.length + 2) + 2

/-- `re` match attempt at a fixed position: the end position of the match of
`r` at `pos` (in preference order), if any. -/
def tryMatchAt (icase : Bool) (r : RE) (s : Str) (pos : Nat) : Option Nat :=
  reMatch icase s (reFuel r s) r pos some

/-- The scan of `re.sub(pattern, repl, s)` from position `pos` on: replace
the leftmost match, continue after it (advancing one position — and copying
the character there — after an empty match, as the `re` module does since
Python 3.7). -/
def reSubFrom (icase : Bool) (r : RE) (repl : Str) (s : Str) : Nat → Nat → Str
  | 0, _ => []
  | fuel + 1, pos =>
    match tryMatchAt icase r s pos with
    | some e =>
      if pos < e then repl ++ reSubFrom icase r repl s fuel e
      else
        match s.get? pos with
        | some c => repl ++ c :: reSubFrom icase r repl s fuel (pos + 1)
        | none => repl
    | none =>
      match s.get? pos with
      | some c => c :: reSubFrom icase r repl s fuel (pos + 1)
      | none => []

/-- `re.sub(pattern, repl, s)` with a fixed replacement string. -/
def reSub (icase : Bool) (r : RE) (repl : Str) (s : Str) : Str :=
  reSubFrom icase r repl s (s.length + 1) 0

/-- The position of the leftmost match of `r` in `s` from `pos` on, if any
(`re.search`). -/
def reSearchFrom (icase : Bool) (r : RE) (s : Str) : Nat → Nat → Option Nat
  | 0, _ => none
  | fuel + 1, pos =>
    match tryMatchAt icase r s pos with
    | some _ => some pos
    | none => if pos < s.length then reSearchFrom icase r s fuel (pos + 1) else none

/-- Whether `re.search(pattern, s)` finds a match. -/
def reSearchB (icase : Bool) (r : RE) (s : Str) : Bool :=
  (reSearchFrom icase r s (s.length + 1) 0).isSome

/-- `re.findall(pattern, s)`, returning the matched substrings.  (Each
`findall` pattern of the source wraps its whole body in a single capturing
group flanked only by zero-width `\b` assertions, so the group-1 strings that
Python returns coincide with the matched substrings.) -/
def reFindAll (icase : Bool) (r : RE) (s : Str) : Nat → Nat → List Str
  | 0, _ => []
  | fuel + 1, pos =>
    match tryMatchAt icase r s pos with
    | some e =>
      if pos < e then ((s.drop pos).take (e - pos)) :: reFindAll icase r s fuel e
      else ([] : Str) :: reFindAll icase r s fuel (pos + 1)
    | none => if pos < s.length then reFindAll icase r s fuel (pos + 1) else []

/-- `re.findall(pattern, s)` (top level). -/
def reFindAllTop (icase : Bool) (r : RE) (s : Str) : List Str :=
  reFindAll icase r s (s.length + 2) 0

/-! ## The fixed patterns of `core/verification.py` -/

/-- `\d`. -/
def dgtC : RE := .cc false [.dgt]

/-- `\s`. -/
def spcC : RE := .cc false [.spc]

/-- `\d{n}`. -/
def dgts (n : Nat) : RE := RE.rep n dgtC

/-- `\d{4}-\d{2}-\d{2}[T ]\d{2}:\d{2}:\d{2}(?:\.\d+)?(?:Z|[+-]\d{2}:\d{2})?`
(verification.py line 236, ISO timestamps). -/
def patTimestampISO : RE :=
  reSeqs [dgts 4, .lit '-', dgts 2, .lit '-', dgts 2,
    .cc false [.one 'T', .one ' '],
    dgts 2, .lit ':', dgts 2, .lit ':', dgts 2,
    RE.opt (.grp (.seq (.lit '.') (RE.plus dgtC))),
    RE.opt (.grp (.alt (.lit 'Z')
      (reSeqs [.cc false [.one '+', .one '-'], dgts 2, .lit ':', dgts 2])))]

/-- `\b\d{10,13}\b` (verification.py line 241, unix timestamps). -/
def patTimestampUnix : RE :=
  reSeqs [.wordB, RE.between 10 13 dgtC, .wordB]

/-- `/(?:home|Users|usr|opt)/[^\s:,]+` (verification.py line 245). -/
def patUnixPath : RE :=
  reSeqs [.lit '/',
    .grp (reAlts [RE.strOf ("home".toList), RE.strOf ("Users".toList),
      RE.strOf ("usr".toList), RE.strOf ("opt".toList)]),
    .lit '/', RE.plus (.cc true [.spc, .one ':', .one ','])]

/-- `[A-Z]:\\[^\s:,]+` (verification.py line 247, Windows paths). -/
def patWinPath : RE :=
  reSeqs [.cc false [.rng 'A' 'Z'], .lit ':', .lit '\\',
    RE.plus (.cc true [.spc, .one ':', .one ','])]

/-- `\bpid[:\s=]+\d+` (verification.py line 250, `re.IGNORECASE`). -/
def patPid : RE :=
  reSeqs [.wordB, RE.strOf ("pid".toList),
    RE.plus (.cc false [.one ':', .spc, .one '=']), RE.plus dgtC]

/-- `\bprocess\s+\d+` (verification.py line 251, `re.IGNORECASE`). -/
def patProcess : RE :=
  reSeqs [.wordB, RE.strOf ("process".toList), RE.plus spcC, RE.plus dgtC]

/-- `0x[0-9a-fA-F]+` (verification.py line 254, memory addresses). -/
def patAddr : RE :=
  reSeqs [.lit '0', .lit 'x',
    RE.plus (.cc false [.rng '0' '9', .rng 'a' 'f', .rng 'A' 'F'])]

/-- `:(\d{2,5})\b` (verification.py line 257, port numbers). -/
def patPort : RE :=
  reSeqs [.lit ':', .grp (RE.between 2 5 dgtC), .wordB]

/-- `\s+` (verification.py line 260, whitespace normalisation). -/
def patWs : RE := RE.plus spcC

/-- `\b([A-Z][a-z]+(?:[A-Z][a-z]+)*Error|[A-Z][a-z]+Exception)\b`
(verification.py line 287, Python exception types). -/
def patPyExc : RE :=
  reSeqs [.wordB,
    .grp (.alt
      (reSeqs [.cc false [.rng 'A' 'Z'], RE.plus (.cc false [.rng 'a' 'z']),
        .star (.grp (.seq (.cc false [.rng 'A' 'Z'])
          (RE.plus (.cc false [.rng 'a' 'z'])))),
        RE.strOf ("Error".toList)])
      (reSeqs [.cc false [.rng 'A' 'Z'], RE.plus (.cc false [.rng 'a' 'z']),
        RE.strOf ("Exception".toList)])),
    .wordB]

/-- `\b(Error|TypeError|ReferenceError|SyntaxError|RangeError)\b`
(verification.py line 293, JavaScript error types). -/
def patJsErr : RE :=
  reSeqs [.wordB,
    .grp (reAlts [RE.strOf ("Error".toList), RE.strOf ("TypeError".toList),
      RE.strOf ("ReferenceError".toList), RE.strOf ("SyntaxError".toList),
      RE.strOf ("RangeError".toList)]),
    .wordB]

/-- `\b(ERROR|FATAL|CRITICAL|FAILED|FAILURE|Exception|error|failed)\b`
(verification.py line 299, common error keywords). -/
def patKeywords : RE :=
  reSeqs [.wordB,
    .grp (reAlts [RE.strOf ("ERROR".toList), RE.strOf ("FATAL".toList),
      RE.strOf ("CRITICAL".toList), RE.strOf ("FAILED".toList),
      RE.strOf ("FAILURE".toList), RE.strOf ("Exception".toList),
      RE.strOf ("error".toList), RE.strOf ("failed".toList)]),
    .wordB]

/-- `\b([45]\d{2})\b` (verification.py line 304, HTTP error codes). -/
def patHttp : RE :=
  reSeqs [.wordB, .grp (.seq (.cc false [.one '4', .one '5']) (dgts 2)), .wordB]

/-! ## `core/verification.py` -/

/-- `_normalize_error_output` (verification.py lines 212-263): the nine
`re.sub` rewrites in source order, then whitespace normalisation and
`strip()`.  Patterns 5 and 6 carry `re.IGNORECASE`. -/
def normalize_error_output (output : Str) : Str :=
  if output.isEmpty then []
  else
    let n1 := reSub false patTimestampISO ("[TIMESTAMP]".toList) output
    let n2 := reSub false patTimestampUnix ("[TIMESTAMP]".toList) n1
    let n3 := reSub false patUnixPath ("[PATH]".toList) n2
    let n4 := reSub false patWinPath ("[PATH]".toList) n3
    let n5 := reSub true patPid ("pid=[PID]".toList) n4
    let n6 := reSub true patProcess ("process [PID]".toList) n5
    let n7 := reSub false patAddr ("[ADDR]".toList) n6
    let n8 := reSub false patPort (":[PORT]".toList) n7
    let n9 := reSub false patWs (" ".toList) n8
    stripWs n9

/-- `_extract_error_patterns` (verification.py lines 266-321).  The four
`findall` harvests followed by the six lowercase phrase checks; the Python
`set` is modelled as a deduplicated list (see `dedupStr`). -/
def extract_error_patterns (output : Str) : List Str :=
  if output.isEmpty then []
  else
    let p1 := reFindAllTop false patPyExc output
    let p2 := reFindAllTop false patJsErr output
    let p3 := reFindAllTop false patKeywords output
    let p4 := (reFindAllTop false patHttp output).map (fun c => ("HTTP_".toList) ++ c)
    let low := lowerStr output
    let ph1 := if pyIn ("not found".toList) low then [("not_found".toList)] else []
    let ph2 := if pyIn ("permission denied".toList) low then [("permission_denied".toList)] else []
    let ph3 := if pyIn ("connection refused".toList) low then [("connection_refused".toList)] else []
    let ph4 := if pyIn ("timeout".toList) low then [("timeout".toList)] else []
    let ph5 := if pyIn ("no such file".toList) low then [("file_missing".toList)] else []
    let ph6 := if pyIn ("cannot connect".toList) low then [("connection_failed".toList)] else []
    dedupStr (p1 ++ p2 ++ p3 ++ p4 ++ ph1 ++ ph2 ++ ph3 ++ ph4 ++ ph5 ++ ph6)

/-- `ErrorComparison` (verification.py lines 17-29).  `similarity_score` is a
Python float, modelled as `ℚ`; `is_same_error` records the truthiness of the
Python expression assigned to the field. -/
structure ErrorComparison where
  is_same_error : Bool
  similarity_score : ℚ
  key_differences : List Str
deriving DecidableEq, Repr

/-- Comma-joining helper for `joinCommaSorted`. -/
def joinCommaGo : List Str → Str
  | [] => []
  | [l] => l
  | l :: ls => l ++ (", ".toList) ++ joinCommaGo ls

/-- `", ".join(sorted(patterns))`. -/
def joinCommaSorted (patterns : List Str) : Str :=
  joinCommaGo (sortLex patterns)

/-! ## `difflib.SequenceMatcher` (Python standard library)

`compare_errors` calls `SequenceMatcher(None, a, b).ratio()`.  With
`isjunk = None` the junk set `bjunk` is empty; the `autojunk` heuristic
removes, for sequences of length ≥ 200, the *popular* elements (appearing
more than `len(b) // 100 + 1` times) from the index `b2j` consulted by the
main loop of `find_longest_match` (they stay usable by the extension loops,
which only consult `bjunk`). -/

/-- A matching block `(i, j, size)` as returned by `find_longest_match`. -/
structure MBlock where
  i : Nat
  j : Nat
  size : Nat
deriving DecidableEq, Repr

/-- The `autojunk` popularity predicate on elements of `b`. -/
def autoPopular (b : Str) (c : Char) : Bool :=
  decide (200 ≤ b.length) && decide (b.length / 100 + 1 < b.count c)

/-- `b2j[c]`: the ascending list of positions of `c` in `b`, empty for
popular elements (they are deleted from `b2j` by `__chain_b`). -/
def b2jList (b : Str) (pop : Char → Bool) (c : Char) : List Nat :=
  if pop c then []
  else (List.range b.length).filter (fun j => b.get? j == some c)

/-- `a[i]` / `b[j]` access; all accesses the model performs are in range, so
the default is irrelevant (and harmless for the self-comparison lemmas). -/
def chAt (s : Str) (i : Nat) : Char := s.getD i ' '

/-- The inner loop of `find_longest_match` for one value of `i`: walk the
candidate positions `j` (ascending, already restricted to `[blo, bhi)`),
building `newj2len` from the previous row `j2len` and updating the best
block whenever a strictly longer match ending at `(i, j)` appears.
(`j2lenget(j-1, 0)` reads `0` when `j = 0`, since `-1` is absent.) -/
def flmInner (i : Nat) (j2len : Nat → Nat) :
    List Nat → (Nat → Nat) → MBlock → ((Nat → Nat) × MBlock)
  | [], newlen, best => (newlen, best)
  | j :: js, newlen, best =>
    let k := (if j = 0 then 0 else j2len (j - 1)) + 1
    let newlen2 := fun x => if x = j then k else newlen x
    -- `i-k+1` / `j-k+1` of the source; `k ≤ i+1` and `k ≤ j+1` whenever the
    -- update fires, so the `+1` is pulled in front of the truncating `Nat`
    -- subtraction.
    let best2 := if best.size < k then ⟨i + 1 - k, j + 1 - k, k⟩ else best
    flmInner i j2len js newlen2 best2

/-- The candidate positions the inner loop visits for row `i`: the
`if j < blo: continue` / `if j >= bhi: break` guards restrict the ascending
index list `b2j[a[i]]` to `[blo, bhi)` (the break discards exactly the tail
`≥ bhi`). -/
def jsOf (a b : Str) (pop : Char → Bool) (blo bhi i : Nat) : List Nat :=
  (b2jList b pop (chAt a i)).filter (fun j => decide (blo ≤ j) && decide (j < bhi))

/-- The outer loop of `find_longest_match` over `i ∈ range(alo, ahi)`. -/
def flmMain (a b : Str) (pop : Char → Bool) (blo bhi : Nat) :
    List Nat → ((Nat → Nat) × MBlock) → ((Nat → Nat) × MBlock)
  | [], st => st
  | i :: is_, st =>
    let st2 := flmInner i st.1 (jsOf a b pop blo bhi i) (fun _ => 0) st.2
    flmMain a b pop blo bhi is_ st2

/-- First extension loop: extend the best block backwards by non-junk
equal elements. -/
def extBack (a b : Str) (junk : Char → Bool) (alo blo : Nat) :
    Nat → MBlock → MBlock
  | 0, best => best
  | fuel + 1, best =>
    if (decide (alo < best.i) && decide (blo < best.j)) &&
        (!junk (chAt b (best.j - 1)) && (chAt a (best.i - 1) == chAt b (best.j - 1))) then
      extBack a b junk alo blo fuel ⟨best.i - 1, best.j - 1, best.size + 1⟩
    else best

/-- Second extension loop: extend forwards by non-junk equal elements. -/
def extFwd (a b : Str) (junk : Char → Bool) (ahi bhi : Nat) :
    Nat → MBlock → MBlock
  | 0, best => best
  | fuel + 1, best =>
    if (decide (best.i + best.size < ahi) && decide (best.j + best.size < bhi)) &&
        (!junk (chAt b (best.j + best.size)) &&
          (chAt a (best.i + best.size) == chAt b (best.j + best.size))) then
      extFwd a b junk ahi bhi fuel ⟨best.i, best.j, best.size + 1⟩
    else best

/-- Third extension loop: extend backwards by junk equal elements. -/
def extBackJ (a b : Str) (junk : Char → Bool) (alo blo : Nat) :
    Nat → MBlock → MBlock
  | 0, best => best
  | fuel + 1, best =>
    if (decide (alo < best.i) && decide (blo < best.j)) &&
        (junk (chAt b (best.j - 1)) && (chAt a (best.i - 1) == chAt b (best.j - 1))) then
      extBackJ a b junk alo blo fuel ⟨best.i - 1, best.j - 1, best.size + 1⟩
    else best

/-- Fourth extension loop: extend forwards by junk equal elements. -/
def extFwdJ (a b : Str) (junk : Char → Bool) (ahi bhi : Nat) :
    Nat → MBlock → MBlock
  | 0, best => best
  | fuel + 1, best =>
    if (decide (best.i + best.size < ahi) && decide (best.j + best.size < bhi)) &&
        (junk (chAt b (best.j + best.size)) &&
          (chAt a (best.i + best.size) == chAt b (best.j + best.size))) then
      extFwdJ a b junk ahi bhi fuel ⟨best.i, best.j, best.size + 1⟩
    else best

/-- `find_longest_match(alo, ahi, blo, bhi)`.  The backward loops run at most
`best.i` times (each step decrements `best.i ≥ 1`), the forward loops at most
`ahi` times (each step needs `best.i + best.size < ahi`); those counts are
passed as fuel. -/
def findLongestMatch (a b : Str) (pop junk : Char → Bool)
    (alo ahi blo bhi : Nat) : MBlock :=
  let st := flmMain a b pop blo bhi (List.range' alo (ahi - alo))
    ((fun _ => 0), ⟨alo, blo, 0⟩)
  let b1 := extBack a b junk alo blo st.2.i st.2
  let b2 := extFwd a b junk ahi bhi ahi b1
  let b3 := extBackJ a b junk alo blo b2.i b2
  extFwdJ a b junk ahi bhi ahi b3

/-- The total size of the matching blocks, computed by the same recursive
splitting as `get_matching_blocks` (the queue there visits exactly the same
subproblems; only the sum of the block sizes is consumed by `ratio`). -/
def matchesTotal (a b : Str) (pop junk : Char → Bool) :
    Nat → Nat → Nat → Nat → Nat → Nat
  | 0, _, _, _, _ => 0
  | fuel + 1, alo, ahi, blo, bhi =>
    let m := findLongestMatch a b pop junk alo ahi blo bhi
    if m.size = 0 then 0
    else
      m.size + matchesTotal a b pop junk fuel alo m.i blo m.j +
        matchesTotal a b pop junk fuel (m.i + m.size) ahi (m.j + m.size) bhi

/-- `SequenceMatcher(None, a, b).ratio()`: `2.0 * M / T` where `M` is the
total matched size and `T = len(a) + len(b)`, and `1.0` when `T = 0`
(`_calculate_ratio`).  The float is modelled as `ℚ`. -/
def ratioOf (a b : Str) : ℚ :=
  let M := matchesTotal a b (autoPopular b) (fun _ => false)
    (a.length + b.length + 1) 0 a.length 0 b.length
  if a.length + b.length = 0 then 1
  else (2 * (M : ℚ)) / ((a.length : ℚ) + (b.length : ℚ))

/-- `compare_errors` (verification.py lines 49-134).  The two float weights
`0.7` / `0.3` and the thresholds `0.8` / `0.6` are exact rationals here; the
boolean `is_same_error` records the truthiness of the Python `or`-expression
(whose second disjunct requires the pattern set of the previous stderr to be
non-empty). -/
def compare_errors (previous current : ExecutionResult) : ErrorComparison :=
  let exit_code_same := previous.exit_code == current.exit_code
  let kd1 : List Str :=
    if exit_code_same then []
    else [("Exit code changed from ".toList) ++ (Int.repr previous.exit_code).toList ++
      (" to ".toList) ++ (Int.repr current.exit_code).toList]
  let prev_stderr_normalized := normalize_error_output previous.stderr
  let curr_stderr_normalized := normalize_error_output current.stderr
  let stderr_similarity := ratioOf prev_stderr_normalized curr_stderr_normalized
  let prev_stdout_normalized := normalize_error_output previous.stdout
  let curr_stdout_normalized := normalize_error_output current.stdout
  let stdout_similarity := ratioOf prev_stdout_normalized curr_stdout_normalized
  let overall_similarity := stderr_similarity * (7 / 10) + stdout_similarity * (3 / 10)
  let prev_error_patterns := extract_error_patterns previous.stderr
  let curr_error_patterns := extract_error_patterns current.stderr
  let missing_patterns := prev_error_patterns.filter (fun p => !curr_error_patterns.elem p)
  let new_patterns := curr_error_patterns.filter (fun p => !prev_error_patterns.elem p)
  let kd2 : List Str :=
    if missing_patterns.isEmpty then []
    else [("Error patterns no longer present: ".toList) ++ joinCommaSorted missing_patterns]
  let kd3 : List Str :=
    if new_patterns.isEmpty then []
    else [("New error patterns appeared: ".toList) ++ joinCommaSorted new_patterns]
  let is_same_error :=
    (exit_code_same && decide ((8 : ℚ) / 10 < stderr_similarity)) ||
      (missing_patterns.isEmpty && new_patterns.isEmpty &&
        !prev_error_patterns.isEmpty && decide ((6 : ℚ) / 10 < overall_similarity))
  ⟨is_same_error, overall_similarity, kd1 ++ kd2 ++ kd3⟩

/-- The criteria dictionary consumed by `check_custom_criteria`: each
recognised key is either absent or present with its value (already coerced
the way the source coerces it: `str(...)` for the pattern keys, `float(...)`
for the duration bound).  Unrecognised keys are never read and are not
represented. -/
structure Criteria where
  exit_code : Option Int
  contains : Option Str
  not_contains : Option Str
  regex_match : Option Str
  stderr_contains : Option Str
  stderr_not_contains : Option Str
  duration_less_than : Option ℚ
deriving DecidableEq, Repr

/-- The empty criteria dictionary `{}`. -/
def Criteria.empty : Criteria := ⟨none, none, none, none, none, none, none⟩

/-- A criteria dictionary containing only `not_contains`. -/
def Criteria.onlyNotContains (p : Str) : Criteria :=
  ⟨none, none, some p, none, none, none, none⟩

/-- `check_custom_criteria` (verification.py lines 137-209).  Each criterion
is checked in source order and any failure returns `False`; that early-return
chain is the conjunction below.  The `regex_match` branch
(`re.search(pattern, result.stdout)` with `re.error` treated as
non-matching) is parameterised by the oracle `reOk pattern stdout`, which
reports whether the user-supplied pattern string is valid *and* matches —
every theorem about this function below holds for an arbitrary oracle. -/
def check_custom_criteria (reOk : Str → Str → Bool) (result : ExecutionResult)
    (criteria : Criteria) : Bool :=
  let c1 := match criteria.exit_code with
    | some expected => result.exit_code == expected
    | none => true
  let c2 := match criteria.contains with
    | some p => pyIn p result.stdout
    | none => true
  let c3 := match criteria.not_contains with
    | some p => !(pyIn p result.stdout || pyIn p result.stderr)
    | none => true
  let c4 := match criteria.regex_match with
    | some p => reOk p result.stdout
    | none => true
  let c5 := match criteria.stderr_contains with
    | some p => pyIn p result.stderr
    | none => true
  let c6 := match criteria.stderr_not_contains with
    | some p => !(pyIn p result.stderr)
    | none => true
  let c7 := match criteria.duration_less_than with
    | some max_duration => decide (result.duration < max_duration)
    | none => true
  c1 && c2 && c3 && c4 && c5 && c6 && c7

/-! ## `security/redactor.py` and the built-in patterns of `config/schema.py`

A `Redactor` is the ordered list of compiled rules; `redact` applies
`pattern.sub(f"[REDACTED:{name}]", text)` for each rule in order.  The ten
built-in `SecurityConfig.redact_patterns` (schema.py lines 512-526), all
flagged `(?i)`, are hand-compiled below with the names `Redactor.from_config`
assigns them (`default_names`, redactor.py lines 64-75); user-supplied
`additional_patterns` become further rules appended after the built-ins
(named `custom_pattern_{i}` — the name plays no role in the claims). -/

/-- One redaction rule: a name and a compiled pattern (with its flag). -/
structure RRule where
  name : Str
  icase : Bool
  pattern : RE
deriving DecidableEq, Repr

/-- `pattern.sub(f"[REDACTED:{name}]", text)` for one rule. -/
def redactOne (text : Str) (rule : RRule) : Str :=
  reSub rule.icase rule.pattern
    (("[REDACTED:".toList) ++ rule.name ++ ("]".toList)) text

/-- `Redactor.redact` (redactor.py lines 88-103): fold the rules in order. -/
def redact (rules : List RRule) (text : Str) : Str :=
  rules.foldl redactOne text

/-- `['\"]?` — an optional quote. -/
def optQuote : RE := RE.opt (.cc false [.one '\'', .one '"'])

/-- `[\s=:]+` / `[:\s=]+` — the key/value separator. -/
def kvSep : RE := RE.plus (.cc false [.spc, .one '=', .one ':'])

/-- `[_-]?`. -/
def optDash : RE := RE.opt (.cc false [.one '_', .one '-'])

/-- `[a-zA-Z0-9_\-]`. -/
def wordDash : RE := .cc false [.rng 'a' 'z', .rng 'A' 'Z', .rng '0' '9', .one '_', .one '-']

/-- `[a-zA-Z0-9_\-\.]`. -/
def wordDashDot : RE :=
  .cc false [.rng 'a' 'z', .rng 'A' 'Z', .rng '0' '9', .one '_', .one '-', .one '.']

/-- `(?i)(api[_-]?key|apikey)[\s=:]+['\"]?([a-zA-Z0-9_\-]{20,})['\"]?`. -/
def ruleApiKey : RRule :=
  ⟨("api_key".toList), true,
    reSeqs [.grp (.alt
        (reSeqs [RE.strOf ("api".toList), optDash, RE.strOf ("key".toList)])
        (RE.strOf ("apikey".toList))),
      kvSep, optQuote, .grp (RE.atLeast 20 wordDash), optQuote]⟩

/-- `(?i)(token|access[_-]?token)[\s=:]+['\"]?([a-zA-Z0-9_\-\.]{20,})['\"]?`. -/
def ruleToken : RRule :=
  ⟨("token".toList), true,
    reSeqs [.grp (.alt (RE.strOf ("token".toList))
        (reSeqs [RE.strOf ("access".toList), optDash, RE.strOf ("token".toList)])),
      kvSep, optQuote, .grp (RE.atLeast 20 wordDashDot), optQuote]⟩

/-- `(?i)(secret|client[_-]?secret)[\s=:]+['\"]?([a-zA-Z0-9_\-]{20,})['\"]?`. -/
def ruleSecret : RRule :=
  ⟨("secret".toList), true,
    reSeqs [.grp (.alt (RE.strOf ("secret".toList))
        (reSeqs [RE.strOf ("client".toList), optDash, RE.strOf ("secret".toList)])),
      kvSep, optQuote, .grp (RE.atLeast 20 wordDash), optQuote]⟩

/-- `(?i)(password|passwd|pwd)[\s=:]+['\"]?([^\s'\"]{8,})['\"]?`. -/
def rulePassword : RRule :=
  ⟨("password".toList), true,
    reSeqs [.grp (reAlts [RE.strOf ("password".toList), RE.strOf ("passwd".toList),
        RE.strOf ("pwd".toList)]),
      kvSep, optQuote,
      .grp (RE.atLeast 8 (.cc true [.spc, .one '\'', .one '"'])), optQuote]⟩

/-- `(?i)(bearer\s+[a-zA-Z0-9_\-\.]+)`. -/
def ruleBearer : RRule :=
  ⟨("bearer".toList), true,
    .grp (reSeqs [RE.strOf ("bearer".toList), RE.plus spcC, RE.plus wordDashDot])⟩

/-- `(?i)(authorization:\s*[a-zA-Z0-9_\-\.]+)`. -/
def ruleAuthHeader : RRule :=
  ⟨("authorization".toList), true,
    .grp (reSeqs [RE.strOf ("authorization:".toList), .star spcC, RE.plus wordDashDot])⟩

/-- `(?i)(aws[_-]?access[_-]?key[_-]?id)[\s=:]+['\"]?([A-Z0-9]{20})['\"]?`. -/
def ruleAwsAccessKey : RRule :=
  ⟨("aws_access_key".toList), true,
    reSeqs [.grp (reSeqs [RE.strOf ("aws".toList), optDash, RE.strOf ("access".toList),
        optDash, RE.strOf ("key".toList), optDash, RE.strOf ("id".toList)]),
      kvSep, optQuote,
      .grp (RE.rep 20 (.cc false [.rng 'A' 'Z', .rng '0' '9'])), optQuote]⟩

/-- `(?i)(aws[_-]?secret[_-]?access[_-]?key)[\s=:]+['\"]?([a-zA-Z0-9/+=]{40})['\"]?`. -/
def ruleAwsSecretKey : RRule :=
  ⟨("aws_secret_key".toList), true,
    reSeqs [.grp (reSeqs [RE.strOf ("aws".toList), optDash, RE.strOf ("secret".toList),
        optDash, RE.strOf ("access".toList), optDash, RE.strOf ("key".toList)]),
      kvSep, optQuote,
      .grp (RE.rep 40 (.cc false [.rng 'a' 'z', .rng 'A' 'Z', .rng '0' '9',
        .one '/', .one '+', .one '='])), optQuote]⟩

/-- `(?i)(private[_-]?key|rsa[_-]?private[_-]?key)`. -/
def rulePrivateKey : RRule :=
  ⟨("private_key".toList), true,
    .grp (.alt
      (reSeqs [RE.strOf ("private".toList), optDash, RE.strOf ("key".toList)])
      (reSeqs [RE.strOf ("rsa".toList), optDash, RE.strOf ("private".toList),
        optDash, RE.strOf ("key".toList)]))⟩

/-- `(?i)(BEGIN\s+(RSA\s+)?PRIVATE\s+KEY)`. -/
def rulePrivateKeyBlock : RRule :=
  ⟨("private_key_block".toList), true,
    .grp (reSeqs [RE.strOf ("BEGIN".toList), RE.plus spcC,
      RE.opt (.grp (.seq (RE.strOf ("RSA".toList)) (RE.plus spcC))),
      RE.strOf ("PRIVATE".toList), RE.plus spcC, RE.strOf ("KEY".toList)])⟩

/-- The built-in rule list, in the order of `SecurityConfig.redact_patterns`
(which is the order `Redactor.from_config` and `redact` apply them in). -/
def defaultRules : List RRule :=
  [ruleApiKey, ruleToken, ruleSecret, rulePassword, ruleBearer, ruleAuthHeader,
    ruleAwsAccessKey, ruleAwsSecretKey, rulePrivateKey, rulePrivateKeyBlock]

/-- `Redactor.from_config`: the built-in rules followed by the compiled
user-supplied additions. -/
def redactorFromConfig (additional : List RRule) : List RRule :=
  defaultRules ++ additional

/-- Whether a rule finds any match in `text` (`pattern.search`). -/
def ruleHits (text : Str) (rule : RRule) : Bool :=
  reSearchB rule.icase rule.pattern text

/-! ## Proof-support notions

The following definitions are not part of the embedded program; they name
quantities that the correctness proofs about `find_longest_match` track (the
length of the maximal run of non-popular positions ending at a given index,
and the bound carried from one row of the inner loop to the next). -/

/-- `runEnd s pop lo i`: the length of the maximal run of positions with
non-popular characters that ends at index `i` and stays inside `[lo, ∞)`. -/
def runEnd (s : Str) (pop : Char → Bool) (lo : Nat) : Nat → Nat
  | 0 => if lo = 0 && !pop (chAt s 0) then 1 else 0
  | i + 1 =>
    if pop (chAt s (i + 1)) || decide (i + 1 < lo) then 0
    else if i + 1 = lo then 1 else runEnd s pop lo i + 1

/-- The bound satisfied by every entry of the previous row's `j2len` when the
main loop of `find_longest_match` is about to process row `i`. -/
def prevBound (s : Str) (pop : Char → Bool) (lo i : Nat) : Nat :=
  if i = lo then 0 else runEnd s pop lo (i - 1)

/-- The total `Σ (len(line) + 1)` accumulated by the scans of
`truncate_text` over a list of lines (for `splitNl t` this is
`len(t) + 1`). -/
def sumLens (L : List Str) : Nat :=
  (L.map (fun l => l.length + 1)).sum

/-! ## Concrete instances used by counterexamples and witnesses -/

/-- A healing context used to exercise `truncate_for_context` at budget 20:
a 10-line script, a 12-line stderr, an 8-line uncommitted diff.  (At this
budget every allocation `int(N * w)` of the source agrees with the exact
rational floor used by the model: `int(20*0.3) = 6`, `int(20*0.25) = 5`,
`int(9*0.7) = 6`, `int(5*0.4) = 2`.) -/
def cexC5ctx : HealingContext :=
  ⟨("s.py".toList),
    ("aaaa\naaaa\naaaa\naaaa\naaaa\naaaa\naaaa\naaaa\naaaa\naaaa".toList),
    ⟨1, [], ("bbbb\nbbbb\nbbbb\nbbbb\nbbbb\nbbbb\nbbbb\nbbbb\nbbbb\nbbbb\nbbbb\nbbbb".toList), 0, 0⟩,
    some ⟨[], [], ("cccc\ncccc\ncccc\ncccc\ncccc\ncccc\ncccc\ncccc".toList), []⟩,
    ⟨[], [], [], [], []⟩, ⟨0⟩, []⟩

/-- A healing context that is already within every budget. -/
def witC5ctx : HealingContext :=
  ⟨("s.py".toList), [], ⟨0, [], [], 0, 0⟩, none, ⟨[], [], [], [], []⟩, ⟨0⟩, []⟩

/-- The three-line blob whose `middle` truncation at budget 2 drops both the
first and the last line and grows the text. -/
def cexC6text : Str := ("AAAAAA\nBB\nCCCCCC".toList)

/-- Previous execution: exit code 1, empty stdout, stderr `"e"`. -/
def cexC1prev : ExecutionResult := ⟨1, [], ("e".toList), 0, 0⟩

/-- Current execution: exit code 1, stdout `"xxxx"`, stderr `"e"`. -/
def cexC1curr : ExecutionResult := ⟨1, ("xxxx".toList), ("e".toList), 0, 0⟩

/-! # Theorems -/

/-! ## General lemmas about the truncation pipeline -/

/-- A context whose token total is within the budget is returned unchanged by
`truncate_for_context`. -/
theorem truncate_for_context_of_le (c : HealingContext) (N : Nat)
    (h : context_total_tokens c ≤ N) : truncate_for_context c N = c := by
  unfold truncate_for_context
  simp [h]

/-! ## C7 — token estimation -/

/-- C7, counterexample: the claim says the estimated token cost of a string
equals `ceil(len / 4)`; on the one-character string the code yields `0` while
`ceil(1 / 4) = 1`. -/
theorem C7_ceil_counterexample :
    estimate_tokens ("a".toList) = 0 ∧ (("a".toList).length + 3) / 4 = 1 := by
  constructor <;> rfl

/-- C7, amended: for every string `s`, the truncator's estimated token cost
of `s` equals `floor(len(s) / 4)` — characterised by
`4 * estimate ≤ len < 4 * (estimate + 1)` — not `ceil(len(s) / 4)`. -/
theorem C7_estimate_tokens_floor (s : Str) :
    4 * estimate_tokens s ≤ s.length ∧ s.length < 4 * (estimate_tokens s + 1) := by
  unfold estimate_tokens
  have h := Nat.div_add_mod s.length 4
  have h2 : s.length % 4 < 4 := Nat.mod_lt _ (by norm_num)
  omega

/-! ## C3 — empty custom criteria -/

/-- C3, counterexample: with the empty criteria dictionary,
`check_custom_criteria` returns `True` even for a result with exit code `1`,
refuting "returns true exactly when `exit_code == 0`". -/
theorem C3_empty_criteria_counterexample :
    check_custom_criteria (fun _ _ => false) ⟨1, [], [], 0, 0⟩ Criteria.empty = true ∧
      (1 : Int) ≠ 0 := by
  constructor
  · rfl
  · decide

/-- C3, amended: `check_custom_criteria(r, {})` returns `True` for every
execution result `r` (and every behaviour of the regex oracle) — the empty
criteria dictionary passes unconditionally; it does not reduce to
`r.exit_code == 0`. -/
theorem C3_empty_criteria_always_true (reOk : Str → Str → Bool)
    (r : ExecutionResult) :
    check_custom_criteria reOk r Criteria.empty = true := rfl

/-! ## C4 — the `not_contains` criterion -/

/-- C4, counterexample: with criteria `{"not_contains": "E"}` and a result
whose stdout is empty but whose stderr contains `"E"`, the check returns
`False` although `"E"` does not occur in stdout — refuting "substring test
against stdout only, stderr playing no part". -/
theorem C4_not_contains_counterexample :
    check_custom_criteria (fun _ _ => false) ⟨0, [], ("E".toList), 0, 0⟩
        (Criteria.onlyNotContains ("E".toList)) = false ∧
      pyIn ("E".toList) [] = false := by
  constructor <;> rfl

/-- C4, amended: the `not_contains` criterion is a substring test against
*both* stdout and stderr: with `{"not_contains": p}` alone the check returns
`False` exactly when `p` occurs in stdout or in stderr, and in any criteria
dictionary carrying `not_contains = p` an occurrence of `p` in stdout or
stderr forces the check to return `False`. -/
theorem C4_not_contains_checks_both_streams :
    (∀ (reOk : Str → Str → Bool) (r : ExecutionResult) (p : Str),
      check_custom_criteria reOk r (Criteria.onlyNotContains p) = false ↔
        (pyIn p r.stdout || pyIn p r.stderr) = true) ∧
    (∀ (reOk : Str → Str → Bool) (r : ExecutionResult) (criteria : Criteria) (p : Str),
      criteria.not_contains = some p → (pyIn p r.stdout || pyIn p r.stderr) = true →
        check_custom_criteria reOk r criteria = false) := by
  constructor
  · intro reOk r p
    simp only [check_custom_criteria, Criteria.onlyNotContains]
    cases pyIn p r.stdout <;> cases pyIn p r.stderr <;> simp
  · intro reOk r criteria p hp hin
    simp [check_custom_criteria, hp, hin]

/-- C4, witness for the amended theorem: at stdout `"ok"`, stderr `"Err"`,
pattern `"Err"`, both parts apply and the check indeed returns `False`. -/
theorem C4_not_contains_witness :
    check_custom_criteria (fun _ _ => false) ⟨0, ("ok".toList), ("Err".toList), 0, 0⟩
        (Criteria.onlyNotContains ("Err".toList)) = false ∧
      check_custom_criteria (fun _ _ => true) ⟨0, ("ok".toList), ("Err".toList), 0, 0⟩
        ⟨some 0, none, some ("Err".toList), none, none, none, none⟩ = false := by
  constructor
  · exact (C4_not_contains_checks_both_streams.1 (fun _ _ => false)
      ⟨0, ("ok".toList), ("Err".toList), 0, 0⟩ ("Err".toList)).mpr (by decide)
  · exact C4_not_contains_checks_both_streams.2 (fun _ _ => true)
      ⟨0, ("ok".toList), ("Err".toList), 0, 0⟩
      ⟨some 0, none, some ("Err".toList), none, none, none, none⟩
      ("Err".toList) rfl (by decide)

/-! ## C5 — idempotence of `truncate_for_context` -/

/-- C5, counterexample: truncation is not idempotent.  At budget 20 the first
pass leaves `cexC5ctx` over budget (the inserted `[TRUNCATED: ...]` marker
lines count towards the estimate), so the second pass truncates again and
produces a different context. -/
theorem C5_not_idempotent_counterexample :
    truncate_for_context (truncate_for_context cexC5ctx 20) 20 ≠
      truncate_for_context cexC5ctx 20 := by decide

/-- C5, amended: truncation is idempotent whenever the first pass's output
fits the budget (its token total is at most `N`); in general the marker
lines can leave the output over budget, and a second pass then truncates
further. -/
theorem C5_truncate_idempotent_when_within_budget (c : HealingContext) (N : Nat)
    (h : context_total_tokens (truncate_for_context c N) ≤ N) :
    truncate_for_context (truncate_for_context c N) N = truncate_for_context c N :=
  truncate_for_context_of_le _ _ h

/-- C5, witness: an already-small context satisfies the amended theorem's
hypothesis at budget 0, and double truncation there is indeed a no-op. -/
theorem C5_truncate_idempotent_witness :
    context_total_tokens (truncate_for_context witC5ctx 0) ≤ 0 ∧
      truncate_for_context (truncate_for_context witC5ctx 0) 0 =
        truncate_for_context witC5ctx 0 :=
  ⟨by decide, C5_truncate_idempotent_when_within_budget witC5ctx 0 (by decide)⟩

/-! ## C10 — frame of `truncate_for_context` -/

/-- C10: `truncate_for_context` modifies at most `script_content`,
`execution_result` and `git_context`; the `script_path`, `system_context`,
`config` and `previous_attempts` fields come back unchanged, and the function
commutes with arbitrary replacement of `previous_attempts` — the attempt
history is neither counted against the budget nor reduced, however large. -/
theorem C10_truncate_frame (c : HealingContext) (N : Nat)
    (p : List PreviousAttempt) :
    (truncate_for_context c N).script_path = c.script_path ∧
    (truncate_for_context c N).system_context = c.system_context ∧
    (truncate_for_context c N).config = c.config ∧
    (truncate_for_context c N).previous_attempts = c.previous_attempts ∧
    truncate_for_context { c with previous_attempts := p } N =
      { truncate_for_context c N with previous_attempts := p } := by
  cases c
  unfold truncate_for_context context_total_tokens
  dsimp only
  split <;> simp

/-! ## C8 — the healing loop -/

/-- Unfolding lemma for `intRange`. -/
theorem intRange_succ (lo : Int) (n : Nat) :
    intRange lo (n + 1) = lo :: intRange (lo + 1) n := by
  simp only [intRange, List.range_succ_eq_map, List.map_cons, List.map_map]
  congr 1
  · simp
  · apply List.map_congr_left
    intro x _
    simp only [Function.comp_apply, Int.ofNat_eq_coe]
    push_cast
    ring

/-- Once `mark_success()` has run, the next `_should_continue` check stops
the loop. -/
theorem runFrom_stopped (L : HealingLoop) (body : Int → Bool)
    (timedOut : Nat → Bool) (fuel : Nat) (cur : Int) (chk : Nat) :
    L.runFrom body timedOut fuel cur true chk = [] := by
  cases fuel with
  | zero => rfl
  | succ f =>
    unfold HealingLoop.runFrom should_continue
    split <;> simp

/-- If `mark_success()` never runs and the timeout never fires, the loop
yields every remaining attempt number up to `max_attempts`. -/
theorem runFrom_no_success (L : HealingLoop) (body : Int → Bool)
    (timedOut : Nat → Bool) (ht : ∀ n, timedOut n = false) :
    ∀ (fuel : Nat) (cur : Int) (chk : Nat), 0 ≤ cur →
      (L.max_attempts - cur).toNat < fuel →
      (∀ i, cur < i → body i = false) →
      L.runFrom body timedOut fuel cur false chk =
        intRange (cur + 1) (L.max_attempts - cur).toNat := by
  intro fuel
  induction fuel with
  | zero => intro cur chk h0 hf hb; omega
  | succ f ih =>
    intro cur chk h0 hf hb
    unfold HealingLoop.runFrom should_continue
    rw [ht chk]
    by_cases hM : L.max_attempts ≤ cur
    · have hz : (L.max_attempts - cur).toNat = 0 := by omega
      simp [hM, hz, intRange]
    · have hlt : cur < L.max_attempts := by omega
      simp only [if_neg hM, if_neg (by decide : ¬ (false = true)), if_pos rfl]
      rw [Bool.false_or, hb (cur + 1) (by omega),
        ih (cur + 1) (chk + 1) (by omega) (by omega) (fun i hi => hb i (by omega))]
      have harith : (L.max_attempts - cur).toNat = (L.max_attempts - (cur + 1)).toNat + 1 := by
        omega
      rw [harith, intRange_succ]
      simp

/-- If `mark_success()` runs exactly while handling attempt `k` and the
timeout never fires, the loop yields the remaining attempts up to
`min(max_attempts, k)`. -/
theorem runFrom_success_at (L : HealingLoop) (body : Int → Bool)
    (timedOut : Nat → Bool) (ht : ∀ n, timedOut n = false) (k : Int)
    (hbk : body k = true) :
    ∀ (fuel : Nat) (cur : Int) (chk : Nat), 0 ≤ cur → cur < k →
      (L.max_attempts - cur).toNat < fuel →
      (∀ i, cur < i → i < k → body i = false) →
      L.runFrom body timedOut fuel cur false chk =
        intRange (cur + 1) (min L.max_attempts k - cur).toNat := by
  intro fuel
  induction fuel with
  | zero => intro cur chk h0 hck hf hb; omega
  | succ f ih =>
    intro cur chk h0 hck hf hb
    unfold HealingLoop.runFrom should_continue
    rw [ht chk]
    by_cases hM : L.max_attempts ≤ cur
    · have hz : (min L.max_attempts k - cur).toNat = 0 := by omega
      simp [hM, hz, intRange]
    · have hlt : cur < L.max_attempts := by omega
      simp only [if_neg hM, if_neg (by decide : ¬ (false = true)), if_pos rfl]
      by_cases hek : cur + 1 = k
      · rw [Bool.false_or, hek, hbk, runFrom_stopped]
        have hone : (min L.max_attempts k - cur).toNat = 1 := by omega
        rw [hone, intRange_succ]
        simp [intRange]
      · have hck2 : cur + 1 < k := by omega
        rw [Bool.false_or, hb (cur + 1) (by omega) hck2,
          ih (cur + 1) (chk + 1) (by omega) hck2 (by omega)
            (fun i hi hik => hb i (by omega) hik)]
        have harith : (min L.max_attempts k - cur).toNat =
            (min L.max_attempts k - (cur + 1)).toNat + 1 := by omega
        rw [harith, intRange_succ]
        simp

/-- C8: for every validly constructed `HealingLoop`, if the wall-clock
timeout never fires during iteration, the loop yields exactly the attempt
numbers `1, 2, ..., min(max_attempts, k)` where `k` is the attempt during
whose handling `mark_success()` runs — and all `max_attempts` numbers when it
never runs. -/
theorem C8_healing_loop_yields (ma tpa tt : Int) (L : HealingLoop)
    (hinit : HealingLoop.init ma tpa tt = some L)
    (timedOut : Nat → Bool) (ht : ∀ n, timedOut n = false) :
    (∀ (body : Int → Bool) (k : Int), 1 ≤ k → body k = true →
      (∀ i : Int, 1 ≤ i → i < k → body i = false) →
      L.run body timedOut = intRange 1 (min L.max_attempts k).toNat) ∧
    (∀ body : Int → Bool, (∀ i : Int, body i = false) →
      L.run body timedOut = intRange 1 L.max_attempts.toNat) := by
  have hma : 1 ≤ L.max_attempts := by
    unfold HealingLoop.init at hinit
    split_ifs at hinit with h1 h2 h3
    cases hinit
    exact Int.not_lt.mp h1
  constructor
  · intro body k hk hbk hb
    unfold HealingLoop.run
    rw [runFrom_success_at L body timedOut ht k hbk (L.max_attempts.toNat + 1) 0 0
      le_rfl (by omega) (by omega) (fun i h1 h2 => hb i (by omega) h2)]
    congr 1
    omega
  · intro body hb
    unfold HealingLoop.run
    rw [runFrom_no_success L body timedOut ht (L.max_attempts.toNat + 1) 0 0
      le_rfl (by omega) (fun i _ => hb i)]
    congr 1
    omega

/-- C8, witness: the spec's scenario — `HealingLoop(max_attempts=3,
total_timeout=900)` with `mark_success()` called while handling attempt 2
yields exactly `[1, 2]`. -/
theorem C8_healing_loop_witness :
    HealingLoop.init 3 300 900 = some ⟨3, 300, 900⟩ ∧
      HealingLoop.run ⟨3, 300, 900⟩ (fun i => i == 2) (fun _ => false) = [1, 2] := by
  constructor
  · decide
  · have h := (C8_healing_loop_yields 3 300 900 ⟨3, 300, 900⟩ (by decide)
      (fun _ => false) (fun _ => rfl)).1 (fun i => i == 2) 2 (by decide) (by decide)
      (by intro i h1 h2; rw [le_antisymm (show i ≤ 1 by omega) h1]; rfl)
    exact h.trans (by decide)

/-! ## C2 — double redaction -/

/-- If the search scan finds no match from `pos` on, the substitution scan
copies the rest of the string verbatim. -/
theorem reSubFrom_of_search_none (icase : Bool) (r : RE) (repl : Str) (s : Str) :
    ∀ (fuel : Nat) (pos : Nat), s.length < pos + fuel →
      reSearchFrom icase r s fuel pos = none →
      reSubFrom icase r repl s fuel pos = s.drop pos := by
  intro fuel
  induction fuel with
  | zero =>
    intro pos hlt hn
    rw [List.drop_eq_nil_of_le (show s.length ≤ pos by omega)]
    rfl
  | succ f ih =>
    intro pos hlt hn
    unfold reSearchFrom at hn
    unfold reSubFrom
    cases hm : tryMatchAt icase r s pos with
    | some e => rw [hm] at hn; cases hn
    | none =>
      rw [hm] at hn
      cases hg : s.get? pos with
      | some c =>
        have hp : pos < s.length := by
          by_contra hge
          rw [List.get?_eq_none.mpr (by omega)] at hg
          cases hg
        rw [if_pos hp] at hn
        have hrec := ih (pos + 1) (by omega) hn
        rw [hrec]
        have := List.drop_eq_getElem_cons (l := s) (n := pos) hp
        rw [this]
        have hc : s[pos] = c := by
          have := List.get?_eq_get (l := s) hp
          rw [this] at hg
          exact Option.some.inj hg
        rw [hc]
      | none =>
        have hp : s.length ≤ pos := by
          by_contra hlt2
          rw [List.get?_eq_get (l := s) (by omega)] at hg
          cases hg
        rw [List.drop_eq_nil_of_le hp]

/-- `pattern.sub` is the identity on a string the pattern does not match. -/
theorem reSub_of_no_match (icase : Bool) (r : RE) (repl : Str) (s : Str)
    (h : reSearchB icase r s = false) : reSub icase r repl s = s := by
  unfold reSearchB at h
  unfold reSub
  have hn : reSearchFrom icase r s (s.length + 1) 0 = none := by
    cases hs : reSearchFrom icase r s (s.length + 1) 0 with
    | none => rfl
    | some p => rw [hs] at h; cases h
  rw [reSubFrom_of_search_none icase r repl s (s.length + 1) 0 (by omega) hn]
  exact List.drop_zero s

/-- A rule that finds no match leaves the text unchanged. -/
theorem redactOne_of_no_hit (t : Str) (ru : RRule) (h : ruleHits t ru = false) :
    redactOne t ru = t := by
  unfold redactOne
  exact reSub_of_no_match ru.icase ru.pattern _ t h

/-- A redaction pass over rules none of which match is the identity. -/
theorem redact_of_no_hits (rules : List RRule) (t : Str)
    (h : ∀ ru ∈ rules, ruleHits t ru = false) : redact rules t = t := by
  induction rules with
  | nil => rfl
  | cons ru rest ih =>
    unfold redact
    rw [List.foldl_cons, redactOne_of_no_hit t ru (h ru (by simp))]
    exact ih (fun r hr => h r (by simp [hr]))

/-- C2, counterexample: with the built-in default profile, redaction is not
idempotent: the `private_key` rule's pattern matches its own placeholder, so
`redact(redact("private_key"))` is `"[REDACTED:[REDACTED:private_key]]"`,
not `redact("private_key") = "[REDACTED:private_key]"`. -/
theorem C2_redact_not_idempotent_counterexample :
    redact defaultRules (redact defaultRules ("private_key".toList)) ≠
      redact defaultRules ("private_key".toList) := by decide

/-- C2, amended: a second redaction pass with the same profile is a no-op
*provided* no rule's pattern matches the once-redacted text; the default
profile violates the unconditional claim because the `private_key` rule
matches the `[REDACTED:private_key]` placeholder it inserts. -/
theorem C2_redact_idempotent_when_no_rule_hits (rules : List RRule) (t : Str)
    (h : ∀ ru ∈ rules, ruleHits (redact rules t) ru = false) :
    redact rules (redact rules t) = redact rules t :=
  redact_of_no_hits rules (redact rules t) h

/-- C2, witness: on `"hello"` no default rule matches the (unchanged)
redacted text, and the second pass is indeed a no-op. -/
theorem C2_redact_idempotent_witness :
    (∀ ru ∈ defaultRules, ruleHits (redact defaultRules ("hello".toList)) ru = false) ∧
      redact defaultRules (redact defaultRules ("hello".toList)) =
        redact defaultRules ("hello".toList) :=
  ⟨by decide, C2_redact_idempotent_when_no_rule_hits defaultRules ("hello".toList)
    (by decide)⟩

/-! ## C6 — size and line preservation of `truncate_text` -/

/-- `split("\n")` never yields the empty list. -/
theorem splitNl_ne_nil (s : Str) : splitNl s ≠ [] := by
  cases s with
  | nil => simp [splitNl]
  | cons c cs =>
    unfold splitNl
    cases h : splitNl cs with
    | nil => simp
    | cons l ls =>
      dsimp only
      split <;> simp

/-- Joining the split recovers the string: `"\n".join(s.split("\n")) == s`. -/
theorem joinNl_splitNl (s : Str) : joinNl (splitNl s) = s := by
  induction s with
  | nil => rfl
  | cons c cs ih =>
    unfold splitNl
    cases h : splitNl cs with
    | nil => exact absurd h (splitNl_ne_nil cs)
    | cons l ls =>
      rw [h] at ih
      dsimp only
      by_cases hc : c = '\n'
      · rw [if_pos hc, hc]
        show '\n' :: joinNl (l :: ls) = '\n' :: cs
        rw [ih]
      · rw [if_neg hc]
        cases ls with
        | nil =>
          show c :: l = c :: cs
          rw [show l = cs from ih]
        | cons l2 ls2 =>
          show (c :: l) ++ '\n' :: joinNl (l2 :: ls2) = c :: cs
          rw [← ih]
          rfl

/-- `sumLens` of the line split is the string length plus one. -/
theorem sumLens_splitNl (s : Str) : sumLens (splitNl s) = s.length + 1 := by
  induction s with
  | nil => rfl
  | cons c cs ih =>
    unfold splitNl
    cases h : splitNl cs with
    | nil => exact absurd h (splitNl_ne_nil cs)
    | cons l ls =>
      rw [h] at ih
      dsimp only
      by_cases hc : c = '\n'
      · rw [if_pos hc]
        simp only [sumLens, List.map_cons, List.sum_cons] at ih ⊢
        simp only [List.length_nil, List.length_cons]
        omega
      · rw [if_neg hc]
        simp only [sumLens, List.map_cons, List.sum_cons] at ih ⊢
        simp only [List.length_cons]
        omega

/-- The head line is a prefix of the join. -/
theorem headI_prefix_joinNl (L : List Str) (h : L ≠ []) :
    L.headI <+: joinNl L := by
  cases L with
  | nil => exact absurd rfl h
  | cons l ls =>
    cases ls with
    | nil => exact List.prefix_refl l
    | cons l2 ls2 =>
      show l <+: l ++ '\n' :: joinNl (l2 :: ls2)
      exact List.prefix_append l _

/-- `getLastD` of a non-empty list ignores its default. -/
theorem getLastD_of_ne_nil (l : List Str) (d d2 : Str) (h : l ≠ []) :
    l.getLastD d = l.getLastD d2 := by
  rw [List.getLastD_eq_getLast?, List.getLastD_eq_getLast?]
  cases hl : l.getLast? with
  | none => exact absurd (List.getLast?_eq_none_iff.mp hl) h
  | some y => rfl

/-- The last line is a suffix of the join. -/
theorem getLastD_suffix_joinNl (L : List Str) (h : L ≠ []) :
    L.getLastD [] <:+ joinNl L := by
  induction L with
  | nil => exact absurd rfl h
  | cons l ls ih =>
    cases ls with
    | nil => exact List.suffix_refl l
    | cons l2 ls2 =>
      have hlast : (l :: l2 :: ls2).getLastD ([] : Str) = (l2 :: ls2).getLastD [] := by
        rw [List.getLastD_eq_getLast?, List.getLastD_eq_getLast?, List.getLast?_cons_cons]
      rw [hlast]
      have hsuf : joinNl (l2 :: ls2) <:+ joinNl (l :: l2 :: ls2) := by
        show joinNl (l2 :: ls2) <:+ l ++ '\n' :: joinNl (l2 :: ls2)
        have heq : l ++ '\n' :: joinNl (l2 :: ls2) = (l ++ ['\n']) ++ joinNl (l2 :: ls2) := by
          simp
        rw [heq]
        exact List.suffix_append _ _
      exact (ih (by simp)).trans hsuf

/-- If the cumulative count is still within `target` but the grand total
exceeds it, the start scan breaks at some later line, so the returned index
is at least the running one. -/
theorem startScan_ge (target : Nat) :
    ∀ (L : List Str) (acc idx : Nat), acc ≤ target → target < acc + sumLens L →
      idx ≤ startScan L acc idx target := by
  intro L
  induction L with
  | nil =>
    intro acc idx hacc htot
    simp only [sumLens, List.map_nil, List.sum_nil] at htot
    omega
  | cons l rest ih =>
    intro acc idx hacc htot
    unfold startScan
    dsimp only
    by_cases hb : target < acc + l.length + 1
    · rw [if_pos hb]
    · rw [if_neg hb]
      have hrec := ih (acc + l.length + 1) (idx + 1) (by omega)
        (by simp only [sumLens, List.map_cons, List.sum_cons] at htot ⊢; omega)
      omega

/-- Under the same conditions the end scan breaks before falling back to its
initial value, so the returned index is at most the scanned length. -/
theorem endScan_le (target total : Nat) :
    ∀ (L : List Str) (acc : Nat), acc ≤ target → target < acc + sumLens L →
      endScan total L acc target ≤ L.length := by
  intro L
  induction L with
  | nil =>
    intro acc hacc htot
    simp only [sumLens, List.map_nil, List.sum_nil] at htot
    omega
  | cons l rest ih =>
    intro acc hacc htot
    unfold endScan
    dsimp only
    by_cases hb : target < acc + l.length + 1
    · rw [if_pos hb]
      simp
    · rw [if_neg hb]
      have hrec := ih (acc + l.length + 1) (by omega)
        (by simp only [sumLens, List.map_cons, List.sum_cons] at htot ⊢; omega)
      simp only [List.length_cons]
      omega

/-- The head of a non-trivial take is the head. -/
theorem headI_take (L : List Str) (s : Nat) (hs : 1 ≤ s) :
    (L.take s).headI = L.headI := by
  cases L with
  | nil => simp
  | cons l ls =>
    cases s with
    | zero => omega
    | succ s2 => simp

/-- `getLastD` is preserved by dropping fewer elements than the length. -/
theorem getLastD_drop (L : List Str) :
    ∀ (e : Nat), e < L.length → (L.drop e).getLastD [] = L.getLastD [] := by
  induction L with
  | nil => intro e he; simp at he
  | cons l ls ih =>
    intro e he
    cases e with
    | zero => simp
    | succ e2 =>
      have he2 : e2 < ls.length := by simp at he; omega
      cases ls with
      | nil => simp at he2
      | cons a b =>
        rw [List.drop_succ_cons, ih e2 he2, List.getLastD_eq_getLast?,
          List.getLastD_eq_getLast?, List.getLast?_cons_cons]

/-- `getLastD []` of a non-empty list is its `getLast`. -/
theorem getLastD_eq_getLast (L : List Str) (h : L ≠ []) :
    L.getLastD [] = L.getLast h := by
  rw [List.getLastD_eq_getLast?, List.getLast?_eq_getLast_of_ne_nil h]
  rfl

/-- C6, counterexample: `truncate_text` can *grow* the text and can drop both
the first and the last line of a middle-truncated blob: the 16-character blob
`"AAAAAA\nBB\nCCCCCC"` truncated to 2 tokens in the middle becomes the
42-character string `"\n[TRUNCATED: 3 lines removed from middle]\n"`, which
contains neither the first nor the last input line. -/
theorem C6_truncate_text_counterexample :
    cexC6text.length < (truncate_text cexC6text 2 ("middle".toList)).length ∧
      pyIn ("AAAAAA".toList) (truncate_text cexC6text 2 ("middle".toList)) = false ∧
      pyIn ("CCCCCC".toList) (truncate_text cexC6text 2 ("middle".toList)) = false := by
  refine ⟨by decide, by decide, by decide⟩

/-- C6, amended: truncation returns the input unchanged when it is already
within budget (so it cannot grow it then); in general the inserted marker
line can make the output longer than the input.  A middle-truncated blob
keeps its first line (as a prefix) and its last line (as a suffix) whenever
each of them fits within half of the character budget `4 * max_tokens`. -/
theorem C6_truncate_text_amended :
    (∀ (t : Str) (m : Nat) (p : Str), estimate_tokens t ≤ m → truncate_text t m p = t) ∧
    (∀ (t : Str) (m : Nat),
      (splitNl t).headI.length + 1 ≤ 2 * m →
      ((splitNl t).getLastD []).length + 1 ≤ 2 * m →
      (splitNl t).headI <+: truncate_text t m ("middle".toList) ∧
        (splitNl t).getLastD [] <:+ truncate_text t m ("middle".toList)) := by
  have hpart1 : ∀ (t : Str) (m : Nat) (p : Str), estimate_tokens t ≤ m →
      truncate_text t m p = t := by
    intro t m p h
    unfold truncate_text
    rw [if_pos h]
  refine ⟨hpart1, ?_⟩
  intro t m hf hl
  have hne := splitNl_ne_nil t
  have hprefix_t : (splitNl t).headI <+: t := by
    have h := headI_prefix_joinNl (splitNl t) hne
    rwa [joinNl_splitNl] at h
  have hsuffix_t : (splitNl t).getLastD [] <:+ t := by
    have h := getLastD_suffix_joinNl (splitNl t) hne
    rwa [joinNl_splitNl] at h
  by_cases hest : estimate_tokens t ≤ m
  · rw [hpart1 t m _ hest]
    exact ⟨hprefix_t, hsuffix_t⟩
  · have hlen : 4 * (m + 1) ≤ t.length := by
      unfold estimate_tokens at hest
      omega
    have hsum : sumLens (splitNl t) = t.length + 1 := sumLens_splitNl t
    have htgt : m * 4 / 2 = 2 * m := by omega
    obtain ⟨l0, rest, hsplit⟩ : ∃ l0 rest, splitNl t = l0 :: rest := by
      cases hs : splitNl t with
      | nil => exact absurd hs hne
      | cons a b => exact ⟨a, b, rfl⟩
    have hf0 : l0.length + 1 ≤ 2 * m := by
      rw [hsplit] at hf
      simpa using hf
    have hl0 : ((splitNl t).getLastD []).length + 1 ≤ 2 * m := hl
    have hsumcons : l0.length + 1 + sumLens rest = t.length + 1 := by
      have h2 : sumLens (l0 :: rest) = t.length + 1 := by rw [← hsplit]; exact hsum
      simp only [sumLens, List.map_cons, List.sum_cons] at h2 ⊢
      omega
    have hs1 : 1 ≤ startIdxMid (splitNl t) (2 * m) := by
      rw [hsplit]
      unfold startIdxMid startScan
      dsimp only
      rw [if_neg (show ¬ 2 * m < 0 + l0.length + 1 by omega)]
      exact startScan_ge (2 * m) rest (0 + l0.length + 1) 1 (by omega) (by omega)
    have hrev : (splitNl t).reverse =
        (splitNl t).getLastD [] :: (splitNl t).dropLast.reverse := by
      conv_lhs => rw [← List.dropLast_append_getLast hne]
      rw [List.reverse_append, List.reverse_singleton, getLastD_eq_getLast _ hne]
      rfl
    have hsumrev : ((splitNl t).getLastD []).length + 1 +
        sumLens (splitNl t).dropLast.reverse = t.length + 1 := by
      have h2 : sumLens ((splitNl t).reverse) = sumLens (splitNl t) := by
        unfold sumLens
        rw [List.map_reverse, List.sum_reverse]
      have h4 := hsum
      rw [hrev] at h2
      simp only [sumLens, List.map_cons, List.sum_cons] at h2 ⊢
      simp only [sumLens] at h4
      omega
    have he1 : endIdxMid (splitNl t) (2 * m) < (splitNl t).length := by
      have hlines1 : 1 ≤ (splitNl t).length := by
        rw [hsplit]; simp
      unfold endIdxMid
      rw [hrev]
      unfold endScan
      dsimp only
      rw [if_neg (show ¬ 2 * m < 0 + ((splitNl t).getLastD []).length + 1 by omega)]
      have hrec := endScan_le (2 * m) (splitNl t).length (splitNl t).dropLast.reverse
        (0 + ((splitNl t).getLastD []).length + 1) (by omega) (by omega)
      have hdl : (splitNl t).dropLast.reverse.length = (splitNl t).length - 1 := by
        rw [List.length_reverse, List.length_dropLast]
      omega
    have hmid : truncate_text t m ("middle".toList) =
        (if startIdxMid (splitNl t) (2 * m) < endIdxMid (splitNl t) (2 * m) then
          joinNl ((splitNl t).take (startIdxMid (splitNl t) (2 * m))) ++
            '\n' :: (truncMarkerMiddle
                (endIdxMid (splitNl t) (2 * m) - startIdxMid (splitNl t) (2 * m)) ++
              '\n' :: joinNl ((splitNl t).drop (endIdxMid (splitNl t) (2 * m))))
        else t) := by
      unfold truncate_text
      rw [if_neg hest]
      rw [if_neg (show ¬ (("middle".toList : Str) = ("start".toList)) by decide)]
      rw [if_neg (show ¬ (("middle".toList : Str) = ("end".toList)) by decide)]
      rw [htgt]
    rw [hmid]
    by_cases hse : startIdxMid (splitNl t) (2 * m) < endIdxMid (splitNl t) (2 * m)
    · rw [if_pos hse]
      constructor
      · have htake_ne : (splitNl t).take (startIdxMid (splitNl t) (2 * m)) ≠ [] := by
          obtain ⟨s2, hs2⟩ : ∃ s2, startIdxMid (splitNl t) (2 * m) = s2 + 1 :=
            ⟨startIdxMid (splitNl t) (2 * m) - 1, by omega⟩
          rw [hs2, hsplit]
          simp
        have h1 : (splitNl t).headI <+:
            joinNl ((splitNl t).take (startIdxMid (splitNl t) (2 * m))) := by
          have h2 := headI_prefix_joinNl _ htake_ne
          rwa [headI_take _ _ hs1] at h2
        exact h1.trans (List.prefix_append _ _)
      · have hdrop_ne : (splitNl t).drop (endIdxMid (splitNl t) (2 * m)) ≠ [] := by
          intro hnil
          have h2 := List.drop_eq_nil_iff.mp hnil
          omega
        have h2 : (splitNl t).getLastD [] <:+
            joinNl ((splitNl t).drop (endIdxMid (splitNl t) (2 * m))) := by
          have h3 := getLastD_suffix_joinNl _ hdrop_ne
          rwa [getLastD_drop _ _ he1] at h3
        refine h2.trans ?_
        have heq : joinNl ((splitNl t).take (startIdxMid (splitNl t) (2 * m))) ++
            '\n' :: (truncMarkerMiddle
                (endIdxMid (splitNl t) (2 * m) - startIdxMid (splitNl t) (2 * m)) ++
              '\n' :: joinNl ((splitNl t).drop (endIdxMid (splitNl t) (2 * m)))) =
            (joinNl ((splitNl t).take (startIdxMid (splitNl t) (2 * m))) ++
              '\n' :: truncMarkerMiddle
                (endIdxMid (splitNl t) (2 * m) - startIdxMid (splitNl t) (2 * m)) ++
              ['\n']) ++ joinNl ((splitNl t).drop (endIdxMid (splitNl t) (2 * m))) := by
          simp
        rw [heq]
        exact List.suffix_append _ _
    · rw [if_neg hse]
      exact ⟨hprefix_t, hsuffix_t⟩

/-- C6, witness for the amended theorem: a blob within budget is unchanged,
and a 5-line blob whose first and last lines fit half the budget keeps them
as prefix and suffix after middle truncation. -/
theorem C6_truncate_text_witness :
    truncate_text ("ab\ncd".toList) 5 ("end".toList) = ("ab\ncd".toList) ∧
      ("ab".toList) <+: truncate_text ("ab\ncd\nef\ngh\nij".toList) 2 ("middle".toList) ∧
      ("ij".toList) <:+ truncate_text ("ab\ncd\nef\ngh\nij".toList) 2 ("middle".toList) := by
  refine ⟨C6_truncate_text_amended.1 ("ab\ncd".toList) 5 ("end".toList) (by decide), ?_, ?_⟩
  · exact (C6_truncate_text_amended.2 ("ab\ncd\nef\ngh\nij".toList) 2
      (by decide) (by decide)).1
  · exact (C6_truncate_text_amended.2 ("ab\ncd\nef\ngh\nij".toList) 2
      (by decide) (by decide)).2

/-! ## C1/C9 — the `SequenceMatcher` self-similarity development

The key fact behind both claims is `ratioOf s s = 1`.  The main loop of
`find_longest_match` is shown to keep its best block *diagonal* when both
sequences are the same string; the (non-junk) extension loops then stretch a
diagonal block to the whole aligned interval, and the recursive block
splitting sums to the interval length. -/

/-- `runEnd` outside the interval is zero. -/
theorem runEnd_lt_lo (s : Str) (pop : Char → Bool) (lo : Nat) (i : Nat)
    (h : i < lo) : runEnd s pop lo i = 0 := by
  cases i with
  | zero =>
    unfold runEnd
    rw [if_neg]
    simp only [Bool.and_eq_true, decide_eq_true_eq, not_and]
    intro hl
    omega
  | succ k =>
    unfold runEnd
    rw [if_pos]
    simp only [Bool.or_eq_true, decide_eq_true_eq]
    right
    omega

/-- `runEnd` at a popular position is zero. -/
theorem runEnd_of_pop (s : Str) (pop : Char → Bool) (lo : Nat) (i : Nat)
    (h : pop (chAt s i) = true) : runEnd s pop lo i = 0 := by
  cases i with
  | zero =>
    unfold runEnd
    rw [if_neg]
    simp [h]
  | succ k =>
    unfold runEnd
    rw [if_pos]
    simp [h]

/-- `runEnd` at the left end of the interval. -/
theorem runEnd_at_lo (s : Str) (pop : Char → Bool) (lo : Nat)
    (h : pop (chAt s lo) = false) : runEnd s pop lo lo = 1 := by
  cases lo with
  | zero =>
    unfold runEnd
    rw [if_pos]
    simp [h]
  | succ k =>
    unfold runEnd
    rw [if_neg, if_pos rfl]
    simp [h]

/-- `runEnd` recurrence strictly inside the interval. -/
theorem runEnd_succ (s : Str) (pop : Char → Bool) (lo : Nat) (i : Nat)
    (hlo : lo ≤ i) (h : pop (chAt s (i + 1)) = false) :
    runEnd s pop lo (i + 1) = runEnd s pop lo i + 1 := by
  have hc : ¬ ((pop (chAt s (i + 1)) || decide (i + 1 < lo)) = true) := by
    rw [h]
    simp only [Bool.false_or, decide_eq_true_eq]
    omega
  conv_lhs => rw [runEnd]
  rw [if_neg hc, if_neg (show ¬ i + 1 = lo by omega)]

/-- `runEnd` is bounded by the interval width. -/
theorem runEnd_le (s : Str) (pop : Char → Bool) (lo : Nat) :
    ∀ i, runEnd s pop lo i ≤ i + 1 - lo := by
  intro i
  induction i with
  | zero =>
    unfold runEnd
    split
    · next hcond =>
      simp only [Bool.and_eq_true, decide_eq_true_eq] at hcond
      omega
    · omega
  | succ k ih =>
    unfold runEnd
    split
    · omega
    · next hcond =>
      simp only [Bool.or_eq_true, decide_eq_true_eq, not_or] at hcond
      split
      · omega
      · omega

/-- Looking up a valid index. -/
theorem get?_eq_chAt (s : Str) (i : Nat) (h : i < s.length) :
    s.get? i = some (chAt s i) := by
  rw [List.get?_eq_get h]
  unfold chAt
  rw [List.getD_eq_get _ _ h]

/-- A successful lookup pins down `chAt`. -/
theorem chAt_of_get? (s : Str) (j : Nat) (c : Char) (h : s.get? j = some c) :
    chAt s j = c := by
  unfold chAt
  rw [List.getD_eq_get?, h]
  rfl

/-- A successful lookup implies the index is in range. -/
theorem lt_length_of_get? (s : Str) (j : Nat) (c : Char)
    (h : s.get? j = some c) : j < s.length := by
  by_contra hge
  rw [List.get?_eq_none.mpr (by omega)] at h
  cases h

/-- Membership in the candidate list of row `i` (self-comparison case). -/
theorem mem_jsOf (s : Str) (pop : Char → Bool) (alo ahi i j : Nat) :
    j ∈ jsOf s s pop alo ahi i ↔
      (pop (chAt s i) = false ∧ s.get? j = some (chAt s i) ∧ alo ≤ j ∧ j < ahi) := by
  unfold jsOf b2jList
  by_cases hp : pop (chAt s i)
  · simp [hp]
  · rw [if_neg hp]
    simp only [List.mem_filter, List.mem_range, Bool.and_eq_true, decide_eq_true_eq,
      beq_iff_eq]
    constructor
    · rintro ⟨⟨_, hget⟩, hlo, hhi⟩
      exact ⟨by simp [hp], hget, hlo, hhi⟩
    · rintro ⟨_, hget, hlo, hhi⟩
      exact ⟨⟨lt_length_of_get? s j _ hget, hget⟩, hlo, hhi⟩

/-- The candidate list is strictly ascending. -/
theorem jsOf_pairwise (s : Str) (pop : Char → Bool) (alo ahi i : Nat) :
    (jsOf s s pop alo ahi i).Pairwise (· < ·) := by
  unfold jsOf b2jList
  by_cases hp : pop (chAt s i)
  · simp [hp]
  · rw [if_neg hp]
    exact List.Pairwise.filter _ (List.Pairwise.filter _ (List.pairwise_lt_range _))

/-- One row of the main loop of `find_longest_match`, comparing a string
with itself over an aligned interval: the inner fold keeps the best block
diagonal, within bounds, and computes the new `j2len` row exactly. -/
theorem flmInner_spec (s : Str) (pop : Char → Bool) (alo ahi i : Nat)
    (hialo : alo ≤ i) (f : Nat → Nat)
    (hf_col : ∀ j, f j ≤ runEnd s pop alo j)
    (hf_prev : ∀ j, f j ≤ prevBound s pop alo i)
    (hf_diag : alo < i → i - 1 < s.length → f (i - 1) = runEnd s pop alo (i - 1)) :
    ∀ (js : List Nat) (g : Nat → Nat) (B : MBlock),
      (∀ j ∈ js, pop (chAt s i) = false ∧ s.get? j = some (chAt s i) ∧ alo ≤ j ∧ j < ahi) →
      js.Pairwise (· < ·) →
      (∀ j, g j ≤ runEnd s pop alo j) →
      (∀ j, g j ≤ runEnd s pop alo i) →
      (i < s.length → (i ∈ js ∨ g i = runEnd s pop alo i)) →
      B.i = B.j → alo ≤ B.i → B.i + B.size ≤ i + 1 →
      (∀ x, alo ≤ x → x < i → x < s.length → runEnd s pop alo x ≤ B.size) →
      ((∀ j ∈ js, j ≤ i) ∨ i ∈ js ∨ runEnd s pop alo i ≤ B.size) →
      ((∀ j, (flmInner i f js g B).1 j ≤ runEnd s pop alo j) ∧
       (∀ j, (flmInner i f js g B).1 j ≤ runEnd s pop alo i) ∧
       (i < s.length → (flmInner i f js g B).1 i = runEnd s pop alo i) ∧
       (flmInner i f js g B).2.i = (flmInner i f js g B).2.j ∧
       alo ≤ (flmInner i f js g B).2.i ∧
       (flmInner i f js g B).2.i + (flmInner i f js g B).2.size ≤ i + 1 ∧
       B.size ≤ (flmInner i f js g B).2.size ∧
       (i ∈ js → runEnd s pop alo i ≤ (flmInner i f js g B).2.size)) := by
  intro js
  induction js with
  | nil =>
    intro g B hmem hpair hg_col hg_row hg_diag hBij hBlo hBhi hdom hphase
    refine ⟨hg_col, hg_row, ?_, hBij, hBlo, hBhi, le_refl _, ?_⟩
    · intro hlen
      rcases hg_diag hlen with h | h
      · simp at h
      · exact h
    · intro hmem2
      simp at hmem2
  | cons j rest ih =>
    intro g B hmem hpair hg_col hg_row hg_diag hBij hBlo hBhi hdom hphase
    obtain ⟨hpop, hget, hjlo, hjhi⟩ := hmem j (by simp)
    have hjlen : j < s.length := lt_length_of_get? s j _ hget
    have hchj : chAt s j = chAt s i := chAt_of_get? s j _ hget
    have hpopj : pop (chAt s j) = false := by rw [hchj]; exact hpop
    have hrun_i : prevBound s pop alo i + 1 = runEnd s pop alo i := by
      unfold prevBound
      by_cases hieq : i = alo
      · rw [if_pos hieq, hieq, runEnd_at_lo s pop alo (hieq ▸ hpop)]
      · rw [if_neg hieq]
        have h2 := runEnd_succ s pop alo (i - 1) (by omega)
          (by rw [show i - 1 + 1 = i by omega]; exact hpop)
        rw [show i - 1 + 1 = i by omega] at h2
        omega
    set k := (if j = 0 then 0 else f (j - 1)) + 1 with hkdef
    set g2 : Nat → Nat := fun x => if x = j then k else g x with hg2def
    set B2 := if B.size < k then MBlock.mk (i + 1 - k) (j + 1 - k) k else B with hB2def
    have hstep : flmInner i f (j :: rest) g B = flmInner i f rest g2 B2 := rfl
    have hrunj_lo : runEnd s pop alo j = (if j = alo then 1 else runEnd s pop alo (j - 1) + 1) := by
      by_cases hjalo : j = alo
      · rw [if_pos hjalo, hjalo]
        exact runEnd_at_lo s pop alo (hjalo ▸ hpopj)
      · rw [if_neg hjalo]
        have h2 := runEnd_succ s pop alo (j - 1) (by omega)
          (by rw [show j - 1 + 1 = j by omega]; exact hpopj)
        rw [show j - 1 + 1 = j by omega] at h2
        exact h2
    have hk_col : k ≤ runEnd s pop alo j := by
      rw [hkdef, hrunj_lo]
      by_cases hj0 : j = 0
      · rw [if_pos hj0]
        have : j = alo := by omega
        rw [if_pos this]
      · rw [if_neg hj0]
        by_cases hjalo : j = alo
        · rw [if_pos hjalo]
          have h3 := hf_col (j - 1)
          rw [runEnd_lt_lo s pop alo (j - 1) (by omega)] at h3
          omega
        · rw [if_neg hjalo]
          have h3 := hf_col (j - 1)
          omega
    have hk_row : k ≤ runEnd s pop alo i := by
      rw [hkdef]
      have h1 : (if j = 0 then 0 else f (j - 1)) ≤ prevBound s pop alo i := by
        split
        · exact Nat.zero_le _
        · exact hf_prev _
      omega
    have hk_exact : j = i → k = runEnd s pop alo i := by
      intro hji
      subst hji
      rw [hkdef, ← hrun_i]
      unfold prevBound
      by_cases hj0 : j = 0
      · rw [if_pos hj0]
        have : j = alo := by omega
        rw [if_pos this]
      · rw [if_neg hj0]
        by_cases hjalo : j = alo
        · rw [if_pos hjalo]
          have h3 := hf_prev (j - 1)
          unfold prevBound at h3
          rw [if_pos hjalo] at h3
          omega
        · rw [if_neg hjalo]
          have h4 := hf_diag (by omega) (by omega)
          omega
    have hdiagonal : B.size < k → j = i := by
      intro hlt
      by_contra hne
      rcases Nat.lt_or_ge j i with hji | hji2
      · have h1 := hdom j hjlo hji hjlen
        omega
      · have hij2 : i < j := by omega
        have hthird : runEnd s pop alo i ≤ B.size := by
          rcases hphase with hall | hmem3 | hle
          · have := hall j (by simp)
            omega
          · rcases List.mem_cons.mp hmem3 with heq | hmem4
            · omega
            · have := (List.pairwise_cons.mp hpair).1 i hmem4
              omega
          · exact hle
        omega
    have hB2ij : B2.i = B2.j := by
      rw [hB2def]
      split
      · next hlt =>
        dsimp
        rw [hdiagonal hlt]
      · exact hBij
    have hB2size_lo : B.size ≤ B2.size := by
      rw [hB2def]
      split
      · next hlt =>
        dsimp
        omega
      · exact le_refl _
    have hB2lo : alo ≤ B2.i := by
      rw [hB2def]
      split
      · next hlt =>
        dsimp
        have h5 := runEnd_le s pop alo i
        omega
      · exact hBlo
    have hB2hi : B2.i + B2.size ≤ i + 1 := by
      rw [hB2def]
      split
      · next hlt =>
        show (i + 1 - k) + k ≤ i + 1
        have h5 := runEnd_le s pop alo i
        omega
      · exact hBhi
    have hB2dom : ∀ x, alo ≤ x → x < i → x < s.length → runEnd s pop alo x ≤ B2.size := by
      intro x h1 h2 h3
      have := hdom x h1 h2 h3
      omega
    have hB2ge_of_eq : j = i → runEnd s pop alo i ≤ B2.size := by
      intro hji
      have hexact := hk_exact hji
      rw [hB2def]
      split
      · next hlt =>
        dsimp
        omega
      · next hnlt =>
        omega
    have hB2phase : (∀ x ∈ rest, x ≤ i) ∨ i ∈ rest ∨ runEnd s pop alo i ≤ B2.size := by
      rcases hphase with hall | hmem3 | hle
      · exact Or.inl (fun x hx => hall x (by simp [hx]))
      · rcases List.mem_cons.mp hmem3 with heq | hmem4
        · exact Or.inr (Or.inr (hB2ge_of_eq heq.symm))
        · exact Or.inr (Or.inl hmem4)
      · exact Or.inr (Or.inr (by omega))
    have hg2_col : ∀ x, g2 x ≤ runEnd s pop alo x := by
      intro x
      rw [hg2def]
      dsimp
      split
      · next hxj =>
        rw [hxj]
        exact hk_col
      · exact hg_col x
    have hg2_row : ∀ x, g2 x ≤ runEnd s pop alo i := by
      intro x
      rw [hg2def]
      dsimp
      split
      · exact hk_row
      · exact hg_row x
    have hg2_diag : i < s.length → (i ∈ rest ∨ g2 i = runEnd s pop alo i) := by
      intro hlen
      by_cases hij : i = j
      · right
        rw [hg2def]
        dsimp
        rw [if_pos hij]
        exact hk_exact hij.symm
      · rcases hg_diag hlen with hmem3 | heq
        · rcases List.mem_cons.mp hmem3 with he | hm
          · exact absurd he hij
          · exact Or.inl hm
        · right
          rw [hg2def]
          dsimp
          rw [if_neg hij]
          exact heq
    rw [hstep]
    have hres := ih g2 B2 (fun x hx => hmem x (by simp [hx]))
      (List.pairwise_cons.mp hpair).2 hg2_col hg2_row hg2_diag hB2ij hB2lo hB2hi
      hB2dom hB2phase
    obtain ⟨c1, c2, c3, c4, c5, c6, c7, c8⟩ := hres
    refine ⟨c1, c2, c3, c4, c5, c6, by omega, ?_⟩
    intro hmem5
    rcases List.mem_cons.mp hmem5 with heq | hmem6
    · have := hB2ge_of_eq heq.symm
      omega
    · exact c8 hmem6

/-- The main loop of `find_longest_match` on a self-comparison over an
aligned interval produces a diagonal best block within bounds. -/
theorem flmMain_spec (s : Str) (pop : Char → Bool) (alo ahi : Nat) :
    ∀ (cnt i0 : Nat) (f : Nat → Nat) (B : MBlock),
      alo ≤ i0 → i0 + cnt ≤ ahi →
      (∀ j, f j ≤ runEnd s pop alo j) →
      (∀ j, f j ≤ prevBound s pop alo i0) →
      (alo < i0 → i0 - 1 < s.length → f (i0 - 1) = runEnd s pop alo (i0 - 1)) →
      B.i = B.j → alo ≤ B.i → B.i + B.size ≤ i0 →
      (∀ x, alo ≤ x → x < i0 → x < s.length → runEnd s pop alo x ≤ B.size) →
      ((flmMain s s pop alo ahi (List.range' i0 cnt) (f, B)).2.i =
        (flmMain s s pop alo ahi (List.range' i0 cnt) (f, B)).2.j ∧
       alo ≤ (flmMain s s pop alo ahi (List.range' i0 cnt) (f, B)).2.i ∧
       (flmMain s s pop alo ahi (List.range' i0 cnt) (f, B)).2.i +
         (flmMain s s pop alo ahi (List.range' i0 cnt) (f, B)).2.size ≤ i0 + cnt) := by
  intro cnt
  induction cnt with
  | zero =>
    intro i0 f B hlo hhi hf_col hf_prev hf_diag hBij hBlo hBhi hdom
    refine ⟨hBij, hBlo, ?_⟩
    show B.i + B.size ≤ i0 + 0
    omega
  | succ c ihc =>
    intro i0 f B hlo hhi hf_col hf_prev hf_diag hBij hBlo hBhi hdom
    have hmemJ : ∀ j ∈ jsOf s s pop alo ahi i0,
        pop (chAt s i0) = false ∧ s.get? j = some (chAt s i0) ∧ alo ≤ j ∧ j < ahi :=
      fun j hj => (mem_jsOf s pop alo ahi i0 j).mp hj
    have hg_diag : i0 < s.length →
        (i0 ∈ jsOf s s pop alo ahi i0 ∨ (0 : Nat) = runEnd s pop alo i0) := by
      intro hlen
      by_cases hp : pop (chAt s i0)
      · right
        rw [runEnd_of_pop s pop alo i0 hp]
      · left
        exact (mem_jsOf s pop alo ahi i0 i0).mpr
          ⟨by simp [hp], get?_eq_chAt s i0 hlen, hlo, by omega⟩
    have hphase : (∀ j ∈ jsOf s s pop alo ahi i0, j ≤ i0) ∨
        i0 ∈ jsOf s s pop alo ahi i0 ∨ runEnd s pop alo i0 ≤ B.size := by
      by_cases hp : pop (chAt s i0)
      · left
        intro j hj
        rw [mem_jsOf] at hj
        rw [hj.1] at hp
        cases hp
      · by_cases hlen : i0 < s.length
        · exact Or.inr (Or.inl ((mem_jsOf s pop alo ahi i0 i0).mpr
            ⟨by simp [hp], get?_eq_chAt s i0 hlen, hlo, by omega⟩))
        · left
          intro j hj
          rw [mem_jsOf] at hj
          have := lt_length_of_get? s j _ hj.2.1
          omega
    have hinner := flmInner_spec s pop alo ahi i0 hlo f hf_col hf_prev hf_diag
      (jsOf s s pop alo ahi i0) (fun _ => 0) B hmemJ (jsOf_pairwise s pop alo ahi i0)
      (fun _ => Nat.zero_le _) (fun _ => Nat.zero_le _) hg_diag hBij hBlo (by omega)
      hdom hphase
    obtain ⟨c1, c2, c3, c4, c5, c6, c7, c8⟩ := hinner
    have hdom2 : ∀ x, alo ≤ x → x < i0 + 1 → x < s.length →
        runEnd s pop alo x ≤
          (flmInner i0 f (jsOf s s pop alo ahi i0) (fun _ => 0) B).2.size := by
      intro x hx1 hx2 hx3
      by_cases hxi : x < i0
      · have := hdom x hx1 hxi hx3
        omega
      · have hxe : x = i0 := by omega
        subst hxe
        by_cases hp : pop (chAt s x)
        · rw [runEnd_of_pop s pop alo x hp]
          exact Nat.zero_le _
        · exact c8 ((mem_jsOf s pop alo ahi x x).mpr
            ⟨by simp [hp], get?_eq_chAt s x hx3, hx1, by omega⟩)
    have hprev2 : ∀ j,
        (flmInner i0 f (jsOf s s pop alo ahi i0) (fun _ => 0) B).1 j ≤
          prevBound s pop alo (i0 + 1) := by
      intro j
      unfold prevBound
      rw [if_neg (show ¬ i0 + 1 = alo by omega)]
      simpa using c2 j
    have hdiag2 : alo < i0 + 1 → i0 + 1 - 1 < s.length →
        (flmInner i0 f (jsOf s s pop alo ahi i0) (fun _ => 0) B).1 (i0 + 1 - 1) =
          runEnd s pop alo (i0 + 1 - 1) := by
      intro _ hlen
      simpa using c3 (by simpa using hlen)
    rw [show flmMain s s pop alo ahi (List.range' i0 (c + 1)) (f, B) =
      flmMain s s pop alo ahi (List.range' (i0 + 1) c)
        (flmInner i0 f (jsOf s s pop alo ahi i0) (fun _ => 0) B) from rfl]
    obtain ⟨d1, d2, d3⟩ := ihc (i0 + 1)
      (flmInner i0 f (jsOf s s pop alo ahi i0) (fun _ => 0) B).1
      (flmInner i0 f (jsOf s s pop alo ahi i0) (fun _ => 0) B).2
      (by omega) (by omega) c1 hprev2 hdiag2 c4 c5 (by omega) hdom2
    refine ⟨d1, d2, ?_⟩
    have d3' : (flmMain s s pop alo ahi (List.range' (i0 + 1) c)
        (flmInner i0 f (jsOf s s pop alo ahi i0) (fun _ => 0) B)).2.i +
        (flmMain s s pop alo ahi (List.range' (i0 + 1) c)
        (flmInner i0 f (jsOf s s pop alo ahi i0) (fun _ => 0) B)).2.size ≤
        i0 + 1 + c := d3
    omega

/-- In a self-comparison over aligned intervals with no junk, the first
extension loop stretches a diagonal block all the way back to `alo`. -/
theorem extBack_diag (s : Str) (alo : Nat) :
    ∀ (fuel d sz : Nat), alo ≤ d → d - alo ≤ fuel →
      extBack s s (fun _ => false) alo alo fuel ⟨d, d, sz⟩ =
        ⟨alo, alo, sz + (d - alo)⟩ := by
  intro fuel
  induction fuel with
  | zero =>
    intro d sz h1 h2
    have hd : d = alo := by omega
    subst hd
    simp [extBack]
  | succ n ih =>
    intro d sz h1 h2
    by_cases hd : alo < d
    · rw [extBack, if_pos]
      · rw [ih (d - 1) (sz + 1) (by omega) (by omega)]
        simp only [MBlock.mk.injEq]
        exact ⟨trivial, trivial, by omega⟩
      · simp [hd]
    · have hd2 : d = alo := by omega
      subst hd2
      rw [extBack, if_neg]
      · simp
      · simp

/-- The second extension loop stretches a diagonal block forwards to `ahi`
(or keeps it, if it already reaches past `ahi`). -/
theorem extFwd_diag (s : Str) (ahi : Nat) :
    ∀ (fuel d sz : Nat), ahi ≤ d + sz + fuel →
      extFwd s s (fun _ => false) ahi ahi fuel ⟨d, d, sz⟩ =
        ⟨d, d, max sz (ahi - d)⟩ := by
  intro fuel
  induction fuel with
  | zero =>
    intro d sz h
    rw [extFwd]
    simp only [MBlock.mk.injEq]
    exact ⟨trivial, trivial, by omega⟩
  | succ n ih =>
    intro d sz h
    by_cases hlt : d + sz < ahi
    · rw [extFwd, if_pos]
      · rw [ih d (sz + 1) (by omega)]
        simp only [MBlock.mk.injEq]
        exact ⟨trivial, trivial, by omega⟩
      · simp [hlt]
    · rw [extFwd, if_neg]
      · simp only [MBlock.mk.injEq]
        exact ⟨trivial, trivial, by omega⟩
      · simp [hlt]

/-- With no junk the third extension loop is the identity. -/
theorem extBackJ_id (s : Str) (alo blo : Nat) :
    ∀ (fuel : Nat) (best : MBlock),
      extBackJ s s (fun _ => false) alo blo fuel best = best := by
  intro fuel best
  cases fuel with
  | zero => rfl
  | succ n => simp [extBackJ]

/-- With no junk the fourth extension loop is the identity. -/
theorem extFwdJ_id (s : Str) (ahi bhi : Nat) :
    ∀ (fuel : Nat) (best : MBlock),
      extFwdJ s s (fun _ => false) ahi bhi fuel best = best := by
  intro fuel best
  cases fuel with
  | zero => rfl
  | succ n => simp [extFwdJ]

/-- `find_longest_match` on a self-comparison over the aligned interval
`[alo, ahi)` (no junk, arbitrary popularity filter) returns the whole
interval: the main loop produces a diagonal block and the non-junk
extension loops stretch it to the full interval. -/
theorem flm_self (s : Str) (pop : Char → Bool) (alo ahi : Nat) (h : alo ≤ ahi) :
    findLongestMatch s s pop (fun _ => false) alo ahi alo ahi =
      (⟨alo, alo, ahi - alo⟩ : MBlock) := by
  obtain ⟨m1, m2, m3⟩ := flmMain_spec s pop alo ahi (ahi - alo) alo (fun _ => 0)
    ⟨alo, alo, 0⟩ (le_refl alo) (by omega) (fun _ => Nat.zero_le _)
    (fun _ => Nat.zero_le _) (fun hc => absurd hc (lt_irrefl alo)) rfl (le_refl alo)
    (by simp) (fun x hx1 hx2 _ => absurd hx2 (by omega))
  show extFwdJ s s (fun _ => false) ahi ahi ahi
    (extBackJ s s (fun _ => false) alo alo
      (extFwd s s (fun _ => false) ahi ahi ahi
        (extBack s s (fun _ => false) alo alo
          (flmMain s s pop alo ahi (List.range' alo (ahi - alo))
            ((fun _ => 0), ⟨alo, alo, 0⟩)).2.i
          (flmMain s s pop alo ahi (List.range' alo (ahi - alo))
            ((fun _ => 0), ⟨alo, alo, 0⟩)).2)).i
      (extFwd s s (fun _ => false) ahi ahi ahi
        (extBack s s (fun _ => false) alo alo
          (flmMain s s pop alo ahi (List.range' alo (ahi - alo))
            ((fun _ => 0), ⟨alo, alo, 0⟩)).2.i
          (flmMain s s pop alo ahi (List.range' alo (ahi - alo))
            ((fun _ => 0), ⟨alo, alo, 0⟩)).2))) =
    (⟨alo, alo, ahi - alo⟩ : MBlock)
  rw [extBackJ_id, extFwdJ_id]
  rcases hB : (flmMain s s pop alo ahi (List.range' alo (ahi - alo))
      ((fun _ => 0), (⟨alo, alo, 0⟩ : MBlock))).2 with ⟨d, j0, sz⟩
  rw [hB] at m1 m2 m3
  simp only at m1 m2 m3
  subst m1
  have hb1 : extBack s s (fun _ => false) alo alo
      ((⟨d, d, sz⟩ : MBlock)).i (⟨d, d, sz⟩ : MBlock) =
      ⟨alo, alo, sz + (d - alo)⟩ :=
    extBack_diag s alo d d sz m2 (by omega)
  rw [hb1, extFwd_diag s ahi ahi alo (sz + (d - alo)) (by omega)]
  simp only [MBlock.mk.injEq]
  exact ⟨trivial, trivial, by omega⟩

/-- `get_matching_blocks` recursion on an empty aligned self-interval
contributes nothing. -/
theorem matchesTotal_empty (s : Str) (pop : Char → Bool) (n lo : Nat) :
    matchesTotal s s pop (fun _ => false) (n + 1) lo lo lo lo = 0 := by
  show (if (findLongestMatch s s pop (fun _ => false) lo lo lo lo).size = 0 then 0
    else (findLongestMatch s s pop (fun _ => false) lo lo lo lo).size +
      matchesTotal s s pop (fun _ => false) n lo
        (findLongestMatch s s pop (fun _ => false) lo lo lo lo).i lo
        (findLongestMatch s s pop (fun _ => false) lo lo lo lo).j +
      matchesTotal s s pop (fun _ => false) n
        ((findLongestMatch s s pop (fun _ => false) lo lo lo lo).i +
          (findLongestMatch s s pop (fun _ => false) lo lo lo lo).size) lo
        ((findLongestMatch s s pop (fun _ => false) lo lo lo lo).j +
          (findLongestMatch s s pop (fun _ => false) lo lo lo lo).size) lo) = 0
  rw [flm_self s pop lo lo (le_refl lo)]
  simp

/-- The total matched size of an aligned self-interval equals its length. -/
theorem matchesTotal_self (s : Str) (pop : Char → Bool) (n alo ahi : Nat)
    (h : alo ≤ ahi) :
    matchesTotal s s pop (fun _ => false) (n + 2) alo ahi alo ahi = ahi - alo := by
  have hsub : alo + (ahi - alo) = ahi := by omega
  show (if (findLongestMatch s s pop (fun _ => false) alo ahi alo ahi).size = 0 then 0
    else (findLongestMatch s s pop (fun _ => false) alo ahi alo ahi).size +
      matchesTotal s s pop (fun _ => false) (n + 1) alo
        (findLongestMatch s s pop (fun _ => false) alo ahi alo ahi).i alo
        (findLongestMatch s s pop (fun _ => false) alo ahi alo ahi).j +
      matchesTotal s s pop (fun _ => false) (n + 1)
        ((findLongestMatch s s pop (fun _ => false) alo ahi alo ahi).i +
          (findLongestMatch s s pop (fun _ => false) alo ahi alo ahi).size) ahi
        ((findLongestMatch s s pop (fun _ => false) alo ahi alo ahi).j +
          (findLongestMatch s s pop (fun _ => false) alo ahi alo ahi).size) ahi) =
    ahi - alo
  rw [flm_self s pop alo ahi h]
  by_cases he : ahi - alo = 0
  · simp [he]
  · show (if ahi - alo = 0 then 0
      else (ahi - alo) + matchesTotal s s pop (fun _ => false) (n + 1) alo alo alo alo +
        matchesTotal s s pop (fun _ => false) (n + 1) (alo + (ahi - alo)) ahi
          (alo + (ahi - alo)) ahi) = ahi - alo
    rw [if_neg he, hsub, matchesTotal_empty s pop n alo, matchesTotal_empty s pop n ahi]
    omega

/-- `SequenceMatcher(None, s, s).ratio() == 1.0` for every string `s`. -/
theorem ratioOf_self (s : Str) : ratioOf s s = 1 := by
  show (if s.length + s.length = 0 then (1 : ℚ)
    else (2 * ((matchesTotal s s (autoPopular s) (fun _ => false)
      (s.length + s.length + 1) 0 s.length 0 s.length : Nat) : ℚ)) /
      ((s.length : ℚ) + (s.length : ℚ))) = 1
  by_cases hl : s.length = 0
  · rw [if_pos (by omega)]
  · rw [if_neg (by omega),
      show s.length + s.length + 1 = (s.length + s.length - 1) + 2 by omega,
      matchesTotal_self s (autoPopular s) (s.length + s.length - 1) 0 s.length
        (Nat.zero_le _)]
    rw [Nat.sub_zero]
    have hcast : ((s.length : ℚ)) ≠ 0 := Nat.cast_ne_zero.mpr hl
    field_simp
    ring

/-- `ratio()` is never negative. -/
theorem ratioOf_nonneg (a b : Str) : 0 ≤ ratioOf a b := by
  show (0 : ℚ) ≤ if a.length + b.length = 0 then 1
    else (2 * ((matchesTotal a b (autoPopular b) (fun _ => false)
      (a.length + b.length + 1) 0 a.length 0 b.length : Nat) : ℚ)) /
      ((a.length : ℚ) + (b.length : ℚ))
  split_ifs with h
  · norm_num
  · apply div_nonneg
    · positivity
    · positivity

/-- C9: for every pair of `ExecutionResult`s with equal exit codes and both
stderr fields empty, `compare_errors` reports `is_same_error = true`
regardless of the stdout contents: the empty-vs-empty stderr similarity is
`ratio() = 1.0 > 0.8`, so the exit-code branch of the decision fires. -/
theorem C9_empty_stderr_same_error (previous current : ExecutionResult)
    (hexit : previous.exit_code = current.exit_code)
    (hp : previous.stderr = []) (hc : current.stderr = []) :
    (compare_errors previous current).is_same_error = true := by
  have hsim : ratioOf (normalize_error_output previous.stderr)
      (normalize_error_output current.stderr) = 1 := by
    rw [hp, hc]
    exact ratioOf_self (normalize_error_output [])
  show ((previous.exit_code == current.exit_code) &&
      decide ((8 : ℚ) / 10 < ratioOf (normalize_error_output previous.stderr)
        (normalize_error_output current.stderr)) ||
      ((extract_error_patterns previous.stderr).filter
          (fun p => !(extract_error_patterns current.stderr).elem p)).isEmpty &&
        ((extract_error_patterns current.stderr).filter
          (fun p => !(extract_error_patterns previous.stderr).elem p)).isEmpty &&
        !(extract_error_patterns previous.stderr).isEmpty &&
        decide ((6 : ℚ) / 10 <
          ratioOf (normalize_error_output previous.stderr)
              (normalize_error_output current.stderr) * (7 / 10) +
            ratioOf (normalize_error_output previous.stdout)
              (normalize_error_output current.stdout) * (3 / 10))) = true
  rw [hsim, Bool.or_eq_true]
  left
  rw [Bool.and_eq_true]
  exact ⟨beq_iff_eq.mpr hexit, decide_eq_true (by norm_num)⟩

/-- Witness for C9 at concrete inputs with different stdouts. -/
theorem C9_empty_stderr_same_error_witness :
    (compare_errors ⟨0, ("hello".toList), [], 0, 0⟩
      ⟨0, ("world".toList), [], 0, 0⟩).is_same_error = true :=
  C9_empty_stderr_same_error ⟨0, ("hello".toList), [], 0, 0⟩
    ⟨0, ("world".toList), [], 0, 0⟩ rfl rfl rfl


/-- `ratio()` against an empty first sequence is `0` when the second is
non-empty (no block can match, `M = 0`). -/
theorem ratioOf_nil_left (b : Str) (hb : b.length ≠ 0) : ratioOf [] b = 0 := by
  have hflm : findLongestMatch [] b (autoPopular b) (fun _ => false) 0 0 0 b.length =
      (⟨0, 0, 0⟩ : MBlock) := rfl
  have hM : matchesTotal [] b (autoPopular b) (fun _ => false)
      (0 + b.length + 1) 0 0 0 b.length = 0 := rfl
  show (if 0 + b.length = 0 then (1 : ℚ)
    else (2 * ((matchesTotal [] b (autoPopular b) (fun _ => false)
      (0 + b.length + 1) 0 0 0 b.length : Nat) : ℚ)) /
      (((0 : Nat) : ℚ) + (b.length : ℚ))) = 0
  rw [if_neg (by omega), hM]
  simp

/-- C1 (counterexample): two results with identical exit code (1) and
identical stderr ("e") but disjoint stdouts ("" vs "xxxx") get
`similarity_score = 1 * 0.7 + 0 * 0.3 = 0.7`, which is not `> 0.9`, so the
spec's claimed bound fails (`is_same_error` is still true). -/
theorem C1_similarity_counterexample :
    cexC1prev.exit_code = cexC1curr.exit_code ∧
    cexC1prev.stderr = cexC1curr.stderr ∧
    (compare_errors cexC1prev cexC1curr).is_same_error = true ∧
    ¬((9 : ℚ) / 10 < (compare_errors cexC1prev cexC1curr).similarity_score) := by
  have hsim1 : ratioOf (normalize_error_output cexC1prev.stderr)
      (normalize_error_output cexC1curr.stderr) = 1 :=
    ratioOf_self (normalize_error_output cexC1prev.stderr)
  have hnorm0 : normalize_error_output cexC1prev.stdout = [] := rfl
  have hnorm4 : normalize_error_output cexC1curr.stdout = ("xxxx".toList) := by decide
  have hsim0 : ratioOf (normalize_error_output cexC1prev.stdout)
      (normalize_error_output cexC1curr.stdout) = 0 := by
    rw [hnorm0, hnorm4]
    exact ratioOf_nil_left ("xxxx".toList) (by decide)
  refine ⟨rfl, rfl, ?_, ?_⟩
  · show ((cexC1prev.exit_code == cexC1curr.exit_code) &&
        decide ((8 : ℚ) / 10 < ratioOf (normalize_error_output cexC1prev.stderr)
          (normalize_error_output cexC1curr.stderr)) ||
        ((extract_error_patterns cexC1prev.stderr).filter
            (fun p => !(extract_error_patterns cexC1curr.stderr).elem p)).isEmpty &&
          ((extract_error_patterns cexC1curr.stderr).filter
            (fun p => !(extract_error_patterns cexC1prev.stderr).elem p)).isEmpty &&
          !(extract_error_patterns cexC1prev.stderr).isEmpty &&
          decide ((6 : ℚ) / 10 <
            ratioOf (normalize_error_output cexC1prev.stderr)
                (normalize_error_output cexC1curr.stderr) * (7 / 10) +
              ratioOf (normalize_error_output cexC1prev.stdout)
                (normalize_error_output cexC1curr.stdout) * (3 / 10))) = true
    rw [hsim1, Bool.or_eq_true]
    left
    rw [Bool.and_eq_true]
    exact ⟨beq_iff_eq.mpr rfl, decide_eq_true (by norm_num)⟩
  · show ¬((9 : ℚ) / 10 <
      ratioOf (normalize_error_output cexC1prev.stderr)
          (normalize_error_output cexC1curr.stderr) * (7 / 10) +
        ratioOf (normalize_error_output cexC1prev.stdout)
          (normalize_error_output cexC1curr.stdout) * (3 / 10))
    rw [hsim1, hsim0]
    norm_num

/-- C1 (amended): for results with equal exit codes and equal stderr,
`compare_errors` does return `is_same_error = true` (the stderr similarity
is `1.0 > 0.8`), and the similarity score is at least `0.7` — but not
necessarily `> 0.9`, since the stdout term contributes only
`0.3 * stdout_similarity`. -/
theorem C1_same_error_amended (previous current : ExecutionResult)
    (hexit : previous.exit_code = current.exit_code)
    (herr : previous.stderr = current.stderr) :
    (compare_errors previous current).is_same_error = true ∧
    (7 : ℚ) / 10 ≤ (compare_errors previous current).similarity_score := by
  have hsim : ratioOf (normalize_error_output previous.stderr)
      (normalize_error_output current.stderr) = 1 := by
    rw [herr]
    exact ratioOf_self (normalize_error_output current.stderr)
  constructor
  · show ((previous.exit_code == current.exit_code) &&
        decide ((8 : ℚ) / 10 < ratioOf (normalize_error_output previous.stderr)
          (normalize_error_output current.stderr)) ||
        ((extract_error_patterns previous.stderr).filter
            (fun p => !(extract_error_patterns current.stderr).elem p)).isEmpty &&
          ((extract_error_patterns current.stderr).filter
            (fun p => !(extract_error_patterns previous.stderr).elem p)).isEmpty &&
          !(extract_error_patterns previous.stderr).isEmpty &&
          decide ((6 : ℚ) / 10 <
            ratioOf (normalize_error_output previous.stderr)
                (normalize_error_output current.stderr) * (7 / 10) +
              ratioOf (normalize_error_output previous.stdout)
                (normalize_error_output current.stdout) * (3 / 10))) = true
    rw [hsim, Bool.or_eq_true]
    left
    rw [Bool.and_eq_true]
    exact ⟨beq_iff_eq.mpr hexit, decide_eq_true (by norm_num)⟩
  · show (7 : ℚ) / 10 ≤
      ratioOf (normalize_error_output previous.stderr)
          (normalize_error_output current.stderr) * (7 / 10) +
        ratioOf (normalize_error_output previous.stdout)
          (normalize_error_output current.stdout) * (3 / 10)
    rw [hsim]
    have h0 := ratioOf_nonneg (normalize_error_output previous.stdout)
      (normalize_error_output current.stdout)
    linarith

/-- Witness for the amended C1 at concrete inputs. -/
theorem C1_same_error_amended_witness :
    (compare_errors ⟨2, [], ("err".toList), 0, 0⟩
        ⟨2, ("ok".toList), ("err".toList), 0, 0⟩).is_same_error = true ∧
    (7 : ℚ) / 10 ≤ (compare_errors ⟨2, [], ("err".toList), 0, 0⟩
        ⟨2, ("ok".toList), ("err".toList), 0, 0⟩).similarity_score :=
  C1_same_error_amended ⟨2, [], ("err".toList), 0, 0⟩
    ⟨2, ("ok".toList), ("err".toList), 0, 0⟩ rfl rfl
